import Mathlib

/-!
Shallow embedding of Source/Core/GeometryFilters.js (the mesh-preparation
filter pipeline) and proofs about it.

Modelling conventions, used throughout:

* A JavaScript mesh (`Geometry`) is a record of an insertion-ordered
  attribute table, an optional index list, a primitive type and an optional
  bounding sphere.  JS objects keyed by attribute name are modelled as
  association lists `List (String × GeometryAttribute)`; JS guarantees key
  uniqueness, which theorems assume explicitly where they rely on it.
* Numeric attribute values are modelled as rationals (`Rat`); the source
  only moves them around, except where noted.
* A JS index-list entry can be `undefined` (the source reads arrays out of
  bounds in places), so index lists are `List (Option Nat)`; `none` is the
  JS value `undefined`.  An absent index list is `Option.none` one level up.
* `throw new DeveloperError(msg)` is `Except.error (JsError.developer msg)`;
  a JS TypeError arising from a property access on `undefined` is
  `Except.error (JsError.typeErr msg)`.
* Functions that mutate their argument in place and return it are modelled
  as functions from the old value to the new value.
-/

namespace CesiumGF

/-- JS error kinds: `DeveloperError` thrown explicitly by the source, and
TypeError for a property access on an undefined value. -/
inductive JsError where
  | developer (msg : String) : JsError
  | typeErr (msg : String) : JsError
deriving DecidableEq, Repr

/-- PrimitiveType enum (PrimitiveType.js, an enum of GL topologies). -/
inductive PrimitiveType where
  | TRIANGLES
  | TRIANGLE_STRIP
  | TRIANGLE_FAN
  | LINES
  | LINE_STRIP
  | POINTS
deriving DecidableEq, Repr

/-- ComponentDatatype enum (ComponentDatatype.js); only identity of the tag
matters to GeometryFilters. -/
inductive ComponentDatatype where
  | FLOAT
  | UNSIGNED_BYTE
  | UNSIGNED_SHORT
deriving DecidableEq, Repr

/-- One named per-vertex data channel (GeometryAttribute.js). `values` is the
flat numeric buffer; `values.length / componentsPerAttribute` is the
attribute vertex count. -/
structure GeometryAttribute where
  componentDatatype : ComponentDatatype
  componentsPerAttribute : Nat
  normalize : Bool
  values : List Rat
deriving DecidableEq, Repr

/-- Bounding sphere: center point and radius (BoundingSphere.js collaborator;
only carried around here). -/
structure BoundingSphere where
  center : Rat × Rat × Rat
  radius : Rat
deriving DecidableEq, Repr

/-- A mesh (Geometry.js value as consumed by GeometryFilters). -/
structure Geometry where
  attributes : List (String × GeometryAttribute)
  indexList : Option (List (Option Nat))
  primitiveType : PrimitiveType
  boundingSphere : Option BoundingSphere
deriving DecidableEq, Repr

/-- A 4x4 model matrix, 16 entries row-major (Matrix4.js collaborator;
GeometryFilters only needs construction and equality comparison of these,
the rest is behind the `Mat4Ops` interface below). -/
def Matrix4 := List Rat
deriving DecidableEq, Repr

/-- Matrix4.IDENTITY. -/
def Matrix4.IDENTITY : Matrix4 :=
  [1, 0, 0, 0,  0, 1, 0, 0,  0, 0, 1, 0,  0, 0, 0, 1]

/-- GeometryInstance: a geometry plus its model matrix. -/
structure GeometryInstance where
  geometry : Geometry
  modelMatrix : Matrix4
deriving DecidableEq, Repr

/-- JS read of an index-list entry: out-of-bounds reads give `undefined`
(`none`), and a stored `undefined` entry also reads back as `none`. -/
def readIdx (l : List (Option Nat)) (i : Nat) : Option Nat :=
  (l.get? i).bind id

/-- JS read of a numeric buffer entry.  An out-of-bounds read is `undefined`
in JS; it is modelled as 0 here.  Every theorem below that looks at numeric
values restricts to inputs on which the source reads in bounds, so the
placeholder is never observable. -/
def readQ (l : List Rat) (i : Nat) : Rat :=
  l.getD i 0

/-- JS property lookup in an attribute table (`attributes[name]`). -/
def jsLookup (l : List (String × GeometryAttribute)) (name : String) :
    Option GeometryAttribute :=
  List.lookup name l

/-! ### GeometryFilters.toWireframe (source lines 60-131) -/

/-- Source `addTriangle` (lines 61-70): pushes the three edges
(i0,i1),(i1,i2),(i2,i0) of one triangle onto `lines`. -/
def addTriangle (lines : List (Option Nat)) (i0 i1 i2 : Option Nat) :
    List (Option Nat) :=
  lines ++ [i0, i1, i1, i2, i2, i0]

/-- Source `trianglesToLines` (lines 72-80): the loop steps three indices at
a time and reads `triangles[i + 1]`, `triangles[i + 2]` even when they are
past the end (JS gives `undefined`, here `none`). -/
def trianglesToLines : List (Option Nat) → List (Option Nat)
  | i0 :: i1 :: i2 :: rest => [i0, i1, i1, i2, i2, i0] ++ trianglesToLines rest
  | [i0, i1] => [i0, i1, i1, none, none, i0]
  | [i0] => [i0, none, none, none, none, i0]
  | [] => []

/-- Source `triangleStripToLines` (lines 82-95). -/
def triangleStripToLines (t : List (Option Nat)) : List (Option Nat) :=
  if 3 ≤ t.length then
    [readIdx t 0, readIdx t 1, readIdx t 1, readIdx t 2, readIdx t 2, readIdx t 0] ++
      (List.range' 3 (t.length - 3)).flatMap (fun i =>
        [readIdx t (i - 1), readIdx t i, readIdx t i, readIdx t (i - 2),
         readIdx t (i - 2), readIdx t (i - 1)])
  else []

/-- Source `triangleFanToLines` (lines 97-109): `base = triangles[0]`,
`count = triangles.length - 1`, triangles `(base, t[i], t[i+1])` for
`1 <= i < count`. -/
def triangleFanToLines (t : List (Option Nat)) : List (Option Nat) :=
  match t with
  | [] => []
  | base :: _ =>
    (List.range' 1 (t.length - 1 - 1)).flatMap (fun i =>
      [base, readIdx t i, readIdx t i, readIdx t (i + 1), readIdx t (i + 1), base])

/-- GeometryFilters.toWireframe (lines 60-131).  When the mesh and its
`indexList` are defined, the index list is rewritten according to the
primitive type (left alone for types outside the switch) and the primitive
type is set to LINES. -/
def toWireframe (mesh : Option Geometry) : Option Geometry :=
  match mesh with
  | none => none
  | some m =>
    match m.indexList with
    | none => some m
    | some indices =>
      let m1 :=
        match m.primitiveType with
        | .TRIANGLES => { m with indexList := some (trianglesToLines indices) }
        | .TRIANGLE_STRIP => { m with indexList := some (triangleStripToLines indices) }
        | .TRIANGLE_FAN => { m with indexList := some (triangleFanToLines indices) }
        | _ => m
      some { m1 with primitiveType := .LINES }

/-- The index stream cut into triangles the way the source loops read it:
three at a time, with `undefined` (`none`) for reads past the end. -/
def toTriples : List (Option Nat) → List (Option Nat × Option Nat × Option Nat)
  | a :: b :: c :: rest => (a, b, c) :: toTriples rest
  | [a, b] => [(a, b, none)]
  | [a] => [(a, none, none)]
  | [] => []

/-- The six edge indices emitted for one triangle `(a,b,c)`:
`(a,b),(b,c),(c,a)`, without deduplication. -/
def triangleEdges (t : Option Nat × Option Nat × Option Nat) : List (Option Nat) :=
  [t.1, t.2.1, t.2.1, t.2.2, t.2.2, t.1]

theorem trianglesToLines_eq_bind :
    ∀ il : List (Option Nat), trianglesToLines il = (toTriples il).flatMap triangleEdges
  | [] => rfl
  | [_] => rfl
  | [_, _] => rfl
  | _ :: _ :: _ :: rest => by
      simp [trianglesToLines, toTriples, triangleEdges, trianglesToLines_eq_bind rest]

theorem trianglesToLines_length :
    ∀ il : List (Option Nat), il.length % 3 = 0 →
      (trianglesToLines il).length = 2 * il.length
  | [], _ => rfl
  | [_], h => by simp at h
  | [_, _], h => by simp at h
  | a :: b :: c :: rest, h => by
      have hr : rest.length % 3 = 0 := by
        simp only [List.length_cons] at h
        omega
      simp only [trianglesToLines, List.length_append, List.length_cons,
        trianglesToLines_length rest hr]
      simp
      omega


/-- C7 counterexample: a TRIANGLES mesh whose present index list is `[0]`
(length 1, not a multiple of 3).  The source loop still reads one "triangle"
(getting `undefined` for the two missing slots) and emits 6 line indices,
not `2 × indexCount = 2`. -/
theorem toWireframe_two_per_index_counterexample :
    ((toWireframe (some ⟨[], some [some 0], .TRIANGLES, none⟩)).bind
        Geometry.indexList).map List.length = some 6 ∧ (6 : Nat) ≠ 2 * 1 :=
  ⟨rfl, by decide⟩

/-- C7 (amended): for every mesh with primitiveType TRIANGLES and a present
indexList whose length is a multiple of 3, toWireframe replaces the indexList
with exactly 2 × indexCount line indices — each triangle (a,b,c) contributing
the six edge indices (a,b),(b,c),(c,a) without deduplication — and sets
primitiveType to LINES. -/
theorem toWireframe_triangles_spec (m : Geometry) (il : List (Option Nat))
    (hp : m.primitiveType = .TRIANGLES) (hi : m.indexList = some il)
    (h3 : il.length % 3 = 0) :
    toWireframe (some m) =
      some { m with indexList := some ((toTriples il).flatMap triangleEdges),
                    primitiveType := .LINES } ∧
    ((toTriples il).flatMap triangleEdges).length = 2 * il.length := by
  constructor
  · obtain ⟨attrs, idx, pt, bs⟩ := m
    simp only at hp hi
    subst hp hi
    simp [toWireframe, trianglesToLines_eq_bind]
  · rw [← trianglesToLines_eq_bind]
    exact trianglesToLines_length il h3

/-- C7 witness: the amended statement evaluated on a one-triangle mesh. -/
theorem toWireframe_triangles_spec_witness :
    toWireframe (some ⟨[], some [some 0, some 1, some 2], .TRIANGLES, none⟩) =
      some { (⟨[], some [some 0, some 1, some 2], .TRIANGLES, none⟩ : Geometry) with
              indexList := some ((toTriples [some 0, some 1, some 2]).flatMap triangleEdges),
              primitiveType := .LINES } ∧
    ((toTriples [some 0, some 1, some 2]).flatMap triangleEdges).length =
      2 * ([some 0, some 1, some 2] : List (Option Nat)).length :=
  toWireframe_triangles_spec ⟨[], some [some 0, some 1, some 2], .TRIANGLES, none⟩
    [some 0, some 1, some 2] rfl rfl (by decide)

/-! ### GeometryFilters.createAttributeIndices / mapAttributeIndices (lines 136-168) -/

/-- JS property read `obj[k]` on an object modelled as an association list
(`undefined` when the key is absent). -/
def jsGet {α β : Type} [DecidableEq α] : List (α × β) → α → Option β
  | [], _ => none
  | p :: rest, k => if p.1 = k then some p.2 else jsGet rest k

/-- JS property assignment `obj[k] = v` on an object modelled as an
association list: overwrites the entry if the key exists, appends otherwise.
Assigning `undefined` (`v = none` at value type `Option _`) still creates the
key, exactly as in JS. -/
def jsSet {α β : Type} [DecidableEq α] (l : List (α × β)) (k : α) (v : β) :
    List (α × β) :=
  if l.any (fun p => decide (p.1 = k)) then
    l.map (fun p => if p.1 = k then (k, v) else p)
  else l ++ [(k, v)]

/-- GeometryFilters.createAttributeIndices (lines 136-151): walks the
attribute table in iteration order assigning slots 0, 1, 2, ... -/
def createAttributeIndices (mesh : Option Geometry) : List (String × Nat) :=
  match mesh with
  | none => []
  | some m =>
    (m.attributes.foldl
      (fun (acc : List (String × Nat) × Nat) p => (jsSet acc.1 p.1 acc.2, acc.2 + 1))
      ([], 0)).1

/-- GeometryFilters.mapAttributeIndices (lines 156-168): for each `name` in
`map`, performs `mappedIndices[map[name]] = indices[name]`.  The value
`indices[name]` is `undefined` (`none`) when `name` is absent from `indices`,
but the assignment still creates the key `map[name]`. -/
def mapAttributeIndices (indices : Option (List (String × Nat)))
    (map : Option (List (String × Nat))) : List (Nat × Option Nat) :=
  match indices, map with
  | some idx, some mp =>
    mp.foldl (fun acc p => jsSet acc p.2 (jsGet idx p.1)) []
  | _, _ => []

theorem jsGet_map_overwrite_ne {α β : Type} [DecidableEq α] (k q : α) (v : β)
    (hne : q ≠ k) :
    ∀ l : List (α × β),
      jsGet (l.map (fun p => if p.1 = k then (k, v) else p)) q = jsGet l q
  | [] => rfl
  | p :: rest => by
    by_cases hp : p.1 = k
    · have h1 : ¬ (k = q) := fun he => hne he.symm
      have h2 : ¬ (p.1 = q) := by rw [hp]; exact h1
      simp only [List.map_cons, if_pos hp, jsGet, h1, h2, if_false, ite_false]
      exact jsGet_map_overwrite_ne k q v hne rest
    · by_cases hq : p.1 = q
      · rw [List.map_cons, if_neg hp]
        simp only [jsGet, hq, if_true, ite_true]
      · rw [List.map_cons, if_neg hp]
        simp only [jsGet, hq, if_false, ite_false]
        exact jsGet_map_overwrite_ne k q v hne rest

theorem jsGet_append_single_ne {α β : Type} [DecidableEq α] (k q : α) (v : β)
    (hne : q ≠ k) :
    ∀ l : List (α × β), jsGet (l ++ [(k, v)]) q = jsGet l q
  | [] => by
    have h1 : ¬ (k = q) := fun he => hne he.symm
    simp only [List.nil_append, jsGet, h1, if_false, ite_false]
  | p :: rest => by
    by_cases hq : p.1 = q
    · simp only [List.cons_append, jsGet, hq, if_true, ite_true]
    · simp only [List.cons_append, jsGet, hq, if_false, ite_false]
      exact jsGet_append_single_ne k q v hne rest

theorem jsGet_jsSet_ne {α β : Type} [DecidableEq α] (l : List (α × β)) (k q : α)
    (v : β) (hne : q ≠ k) : jsGet (jsSet l k v) q = jsGet l q := by
  unfold jsSet
  by_cases h : l.any (fun p => decide (p.1 = k)) = true
  · rw [if_pos h]
    exact jsGet_map_overwrite_ne k q v hne l
  · rw [if_neg h]
    exact jsGet_append_single_ne k q v hne l

theorem jsGet_map_overwrite_self {α β : Type} [DecidableEq α] (k : α) (v : β) :
    ∀ l : List (α × β), l.any (fun p => decide (p.1 = k)) = true →
      jsGet (l.map (fun p => if p.1 = k then (k, v) else p)) k = some v
  | [], h => by simp at h
  | p :: rest, h => by
    by_cases hp : p.1 = k
    · simp only [List.map_cons, if_pos hp, jsGet, if_true, ite_true]
    · have h2 : rest.any (fun p => decide (p.1 = k)) = true := by
        simp only [List.any_cons, Bool.or_eq_true, decide_eq_true_eq] at h
        exact h.resolve_left hp
      simp only [List.map_cons, if_neg hp, jsGet, hp, if_false, ite_false]
      exact jsGet_map_overwrite_self k v rest h2

theorem jsGet_append_single_self {α β : Type} [DecidableEq α] (k : α) (v : β) :
    ∀ l : List (α × β), (∀ p ∈ l, ¬ p.1 = k) →
      jsGet (l ++ [(k, v)]) k = some v
  | [], _ => by simp [jsGet]
  | p :: rest, h => by
    have hp : ¬ (p.1 = k) := h p (List.mem_cons_self p rest)
    simp only [List.cons_append, jsGet, hp, if_false, ite_false]
    exact jsGet_append_single_self k v rest (fun q hq => h q (List.mem_cons_of_mem p hq))

theorem jsGet_jsSet_self {α β : Type} [DecidableEq α] (l : List (α × β)) (k : α)
    (v : β) : jsGet (jsSet l k v) k = some v := by
  unfold jsSet
  by_cases h : l.any (fun p => decide (p.1 = k)) = true
  · rw [if_pos h]
    exact jsGet_map_overwrite_self k v l h
  · rw [if_neg h]
    refine jsGet_append_single_self k v l ?_
    intro p hp hc
    exact h (List.any_eq_true.mpr ⟨p, hp, by simpa using hc⟩)

theorem mapfold_jsGet_absent (idx : List (String × Nat)) :
    ∀ (mp : List (String × Nat)) (acc : List (Nat × Option Nat)) (slot : Nat),
      (∀ q ∈ mp, q.2 = slot → jsGet idx q.1 = none) →
      ((∃ q ∈ mp, q.2 = slot) ∨ jsGet acc slot = some none) →
      jsGet (mp.foldl (fun acc p => jsSet acc p.2 (jsGet idx p.1)) acc) slot =
        some none := by
  intro mp
  induction mp with
  | nil =>
    intro acc slot _ hst
    rcases hst with ⟨q, hq, _⟩ | h
    · exact absurd hq (List.not_mem_nil q)
    · simpa using h
  | cons p rest ih =>
    intro acc slot habs hst
    rw [List.foldl_cons]
    by_cases hp : p.2 = slot
    · have hnone : jsGet idx p.1 = none := habs p (List.mem_cons_self p rest) hp
      apply ih
      · intro q hq hq2
        exact habs q (List.mem_cons_of_mem p hq) hq2
      · right
        rw [← hp, hnone]
        exact jsGet_jsSet_self acc p.2 none
    · apply ih
      · intro q hq hq2
        exact habs q (List.mem_cons_of_mem p hq) hq2
      · rcases hst with ⟨q, hq, hq2⟩ | h
        · rcases List.mem_cons.mp hq with rfl | hq3
          · exact absurd hq2 hp
          · exact Or.inl ⟨q, hq3, hq2⟩
        · right
          rw [jsGet_jsSet_ne acc p.2 slot (jsGet idx p.1) (fun he => hp he.symm)]
          exact h

/-- C8 counterexample: `indices = {}` and `map = {a: 0}`.  The source still
executes `mappedIndices[0] = indices["a"]`, creating key `0` with value
`undefined` — the returned table is not empty, so the map entry is not
dropped without a trace. -/
theorem mapAttributeIndices_absent_counterexample :
    mapAttributeIndices (some []) (some [("a", 0)]) = [(0, none)] ∧
    mapAttributeIndices (some []) (some [("a", 0)]) ≠ ([] : List (Nat × Option Nat)) :=
  ⟨rfl, by decide⟩

/-- C8 (amended): a map entry whose attribute name is absent from the indices
table is not dropped outright: its slot `map[name]` still becomes a key of
the returned table, but with value `undefined` — so value lookups observe it
as absent.  Stated for slots all of whose map entries have absent names (a
present name writing the same slot would overwrite the value). -/
theorem mapAttributeIndices_absent_spec (idx mp : List (String × Nat))
    (name : String) (slot : Nat) (hmem : (name, slot) ∈ mp)
    (habs : ∀ q ∈ mp, q.2 = slot → jsGet idx q.1 = none) :
    jsGet (mapAttributeIndices (some idx) (some mp)) slot = some none := by
  unfold mapAttributeIndices
  exact mapfold_jsGet_absent idx mp [] slot habs (Or.inl ⟨(name, slot), hmem, rfl⟩)

/-- C8 witness: the amended statement evaluated on `indices = {b: 5}`,
`map = {a: 0}`. -/
theorem mapAttributeIndices_absent_spec_witness :
    jsGet (mapAttributeIndices (some [("b", 5)]) (some [("a", 0)])) 0 =
      some none :=
  mapAttributeIndices_absent_spec [("b", 5)] [("a", 0)] "a" 0 (by decide)
    (by decide)

/-! ### GeometryFilters.reorderForPreVertexCache (source lines 189-248) -/

/-- Modelled from the spec: `Geometry.computeNumberOfVertices` lives in
Geometry.js, which is not part of src/.  Per the spec data model,
`values.length / componentsPerAttribute` is an attribute vertex count and
every attribute of a mesh has the same vertex count; the count is taken from
the first attribute (0 when the mesh has no attributes).  All theorems that
depend on the count supply meshes whose attributes agree on it. -/
def computeNumberOfVertices (m : Geometry) : Nat :=
  match m.attributes with
  | [] => 0
  | (_, a) :: _ => a.values.length / a.componentsPerAttribute

/-- State of the index-rewrite while-loop (lines 199-224): the old-to-new
cross-reference array (entry -1 means unset), the next fresh index, and the
rewritten index list built so far. -/
structure ReorderState where
  crossRef : List Int
  nextIndex : Nat
  out : List (Option Nat)

/-- One iteration of the while-loop (lines 208-224) on index-list entry `e`.
`t` is the JS read `indexCrossReferenceOldToNew[indicesIn[intoIndicesIn]]`:
it is `undefined` (`none`) when `e` is itself undefined or is out of range
for the cross-reference array.  The JS test `tempIndex !== -1` sends
`undefined` into the already-mapped branch, which stores `undefined` into
the output — so the range check and its DeveloperError below it are
unreachable. -/
def reorderStep (numVertices : Nat) (s : ReorderState) (e : Option Nat) :
    Except JsError ReorderState :=
  if e.bind (fun x => s.crossRef[x]?) = some (-1) then
    match e with
    | some x =>
      if numVertices ≤ x then
        .error (.developer
          "Input indices contains a value greater than or equal to the number of vertices")
      else
        .ok { crossRef := s.crossRef.set x (s.nextIndex : Int),
              nextIndex := s.nextIndex + 1,
              out := s.out ++ [some s.nextIndex] }
    | none => .ok s
  else
    .ok { s with
      out := s.out ++ [(e.bind (fun x => s.crossRef[x]?)).map Int.toNat] }

/-- The while-loop over the whole index list (lines 208-224). -/
def reorderIndexList (numVertices : Nat) :
    ReorderState → List (Option Nat) → Except JsError ReorderState
  | s, [] => .ok s
  | s, e :: rest =>
    match reorderStep numVertices s e with
    | .error err => .error err
    | .ok s1 => reorderIndexList numVertices s1 rest

/-- JS array write `arr[i] = x` with a possibly negative computed index: a
negative index creates a non-element property (invisible to element reads,
so dropped), an index past the end extends the array.  JS fills the gap with
holes; they are modelled as 0 and no theorem below reads one. -/
def jsWriteQ (l : List Rat) (i : Int) (x : Rat) : List Rat :=
  if i < 0 then l
  else if i.toNat < l.length then l.set i.toNat x
  else l ++ List.replicate (i.toNat - l.length) 0 ++ [x]

/-- Lines 236-242: copy vertex block `v` of one attribute into block
`crossRef[v]` of the output array (`elementsOut[numComponents * temp + i] =
elementsIn[numComponents * intoElementsIn + i]`).  When `crossRef[v]` is -1
(vertex never referenced, or no index list at all) every write lands on a
negative index and the block is silently discarded. -/
def reorderVertexBlock (crossRef : List Int) (a : GeometryAttribute)
    (out : List Rat) (v : Nat) : List Rat :=
  let temp : Int := crossRef.getD v (-1)
  (List.range a.componentsPerAttribute).foldl
    (fun acc k =>
      jsWriteQ acc ((a.componentsPerAttribute : Int) * temp + (k : Nat))
        (readQ a.values (a.componentsPerAttribute * v + k)))
    out

/-- Lines 229-245: rebuild one attribute value array by moving every vertex
block through the cross-reference. -/
def reorderOneAttribute (numVertices : Nat) (crossRef : List Int)
    (a : GeometryAttribute) : GeometryAttribute :=
  { a with values :=
      (List.range numVertices).foldl (reorderVertexBlock crossRef a) [] }

/-- GeometryFilters.reorderForPreVertexCache (lines 189-248).  Note that the
vertex-reordering loop (lines 229-245) runs whether or not the mesh has an
index list. -/
def reorderForPreVertexCache (mesh : Option Geometry) :
    Except JsError (Option Geometry) :=
  match mesh with
  | none => .ok none
  | some m =>
    let numVertices := computeNumberOfVertices m
    let crossRef0 : List Int := List.replicate numVertices (-1)
    match m.indexList with
    | some il =>
      match reorderIndexList numVertices ⟨crossRef0, 0, []⟩ il with
      | .error e => .error e
      | .ok s =>
        .ok (some { m with
          indexList := some s.out,
          attributes := m.attributes.map
            (fun p => (p.1, reorderOneAttribute numVertices s.crossRef p.2)) })
    | none =>
      .ok (some { m with
        attributes := m.attributes.map
          (fun p => (p.1, reorderOneAttribute numVertices crossRef0 p.2)) })

theorem getElem?_set_of_lt {α : Type} (l : List α) (i : Nat) (a : α)
    (h : i < l.length) : (l.set i a)[i]? = some a := by
  rw [List.getElem?_set_self', List.getElem?_eq_getElem h]
  rfl

theorem jsWriteQ_get_self (l : List Rat) (i : Int) (x : Rat) (h : 0 ≤ i) :
    (jsWriteQ l i x)[i.toNat]? = some x := by
  unfold jsWriteQ
  rw [if_neg (by omega)]
  by_cases h2 : i.toNat < l.length
  · rw [if_pos h2]
    exact getElem?_set_of_lt l i.toNat x h2
  · rw [if_neg h2]
    have hlen : (l ++ List.replicate (i.toNat - l.length) 0).length = i.toNat := by
      simp only [List.length_append, List.length_replicate]
      omega
    rw [List.getElem?_append_right (le_of_eq hlen)]
    rw [hlen, Nat.sub_self]
    rfl

theorem jsWriteQ_get_preserve (l : List Rat) (i : Int) (x : Rat) (q : Nat)
    (y : Rat) (hq : l[q]? = some y) (hne : (q : Int) ≠ i) :
    (jsWriteQ l i x)[q]? = some y := by
  unfold jsWriteQ
  by_cases h0 : i < 0
  · rw [if_pos h0]
    exact hq
  · rw [if_neg h0]
    by_cases h2 : i.toNat < l.length
    · rw [if_pos h2]
      rw [List.getElem?_set_ne (by omega)]
      exact hq
    · rw [if_neg h2]
      have hql : q < l.length := (List.getElem?_eq_some_iff.mp hq).1
      rw [List.getElem?_append_left (by simp only [List.length_append]; omega),
        List.getElem?_append_left hql]
      exact hq

theorem foldl_jsWriteQ_preserve (pos : Nat → Int) (g : Nat → Rat) (q : Nat)
    (y : Rat) :
    ∀ (is : List Nat) (out : List Rat), out[q]? = some y →
      (∀ i ∈ is, pos i ≠ (q : Int)) →
      (is.foldl (fun acc k => jsWriteQ acc (pos k) (g k)) out)[q]? = some y
  | [], _, hq, _ => hq
  | i :: rest, out, hq, hne => by
    rw [List.foldl_cons]
    exact foldl_jsWriteQ_preserve pos g q y rest _
      (jsWriteQ_get_preserve out (pos i) (g i) q y hq
        (fun he => hne i (List.mem_cons_self i rest) he.symm))
      (fun j hj => hne j (List.mem_cons_of_mem i hj))

theorem reorderVertexBlock_get_preserve (cr : List Int) (a : GeometryAttribute)
    (w q : Nat) (y : Rat) (out : List Rat) (hq : out[q]? = some y)
    (hne : ∀ i : Nat, i < a.componentsPerAttribute →
      (a.componentsPerAttribute : Int) * (cr.getD w (-1)) + (i : Nat) ≠ (q : Int)) :
    (reorderVertexBlock cr a out w)[q]? = some y := by
  unfold reorderVertexBlock
  exact foldl_jsWriteQ_preserve _ _ q y (List.range a.componentsPerAttribute) out
    hq (fun i hi => hne i (List.mem_range.mp hi))

theorem reorderVertexBlock_get_write (cr : List Int) (a : GeometryAttribute)
    (v : Nat) (out : List Rat) (nx : Nat)
    (htemp : cr.getD v (-1) = ((nx : Nat) : Int)) (k : Nat)
    (hk : k < a.componentsPerAttribute) :
    (reorderVertexBlock cr a out v)[a.componentsPerAttribute * nx + k]? =
      some (readQ a.values (a.componentsPerAttribute * v + k)) := by
  unfold reorderVertexBlock
  rw [htemp]
  have hsplit : List.range a.componentsPerAttribute =
      (List.range k ++ [k]) ++
        (List.range (a.componentsPerAttribute - (k + 1))).map ((k + 1) + ·) := by
    rw [← List.range_succ, ← List.range_add]
    congr 1
    omega
  rw [hsplit, List.foldl_append, List.foldl_append, List.foldl_cons, List.foldl_nil]
  have hpos : (a.componentsPerAttribute : Int) * ((nx : Nat) : Int) + ((k : Nat) : Int) =
      ((a.componentsPerAttribute * nx + k : Nat) : Int) := by
    push_cast
    ring
  refine foldl_jsWriteQ_preserve _ _ _ _ _ _ ?_ ?_
  · rw [hpos]
    have := jsWriteQ_get_self
      (List.foldl
        (fun acc k => jsWriteQ acc ((a.componentsPerAttribute : Int) * ((nx : Nat) : Int) + (k : Nat))
          (readQ a.values (a.componentsPerAttribute * v + k))) out (List.range k))
      ((a.componentsPerAttribute * nx + k : Nat) : Int)
      (readQ a.values (a.componentsPerAttribute * v + k)) (by positivity)
    rwa [Int.toNat_natCast] at this
  · intro j hj he
    obtain ⟨j1, _, rfl⟩ := List.mem_map.mp hj
    have he2 : ((k + 1 + j1 : Nat) : Int) = ((k : Nat) : Int) := by
      rw [← hpos] at he
      exact add_left_cancel he
    have : k + 1 + j1 = k := Nat.cast_injective he2
    omega

theorem block_distinct (c : Nat) (m n : Int) (i k : Nat) (hi : i < c)
    (hk : k < c) (hmn : m ≠ n) :
    (c : Int) * m + (i : Nat) ≠ (c : Int) * n + (k : Nat) := by
  intro he
  have hc : 0 < c := Nat.lt_of_le_of_lt (Nat.zero_le i) hi
  have hc0 : (c : Int) ≠ 0 := by exact_mod_cast hc.ne'
  apply hmn
  have hm : m = ((i : Nat) + (c : Int) * m) / (c : Int) := by
    rw [Int.add_mul_ediv_left _ m hc0]
    rw [Int.ediv_eq_zero_of_lt (by positivity) (by exact_mod_cast hi)]
    ring
  have hn : n = ((k : Nat) + (c : Int) * n) / (c : Int) := by
    rw [Int.add_mul_ediv_left _ n hc0]
    rw [Int.ediv_eq_zero_of_lt (by positivity) (by exact_mod_cast hk)]
    ring
  rw [hm, hn]
  congr 1
  linarith

theorem foldl_reorderVertexBlock_preserve (cr : List Int) (a : GeometryAttribute)
    (q : Nat) (y : Rat) :
    ∀ (vs : List Nat) (out : List Rat), out[q]? = some y →
      (∀ w ∈ vs, ∀ i : Nat, i < a.componentsPerAttribute →
        (a.componentsPerAttribute : Int) * (cr.getD w (-1)) + (i : Nat) ≠ (q : Int)) →
      (vs.foldl (reorderVertexBlock cr a) out)[q]? = some y
  | [], _, hq, _ => hq
  | w :: rest, out, hq, hne => by
    rw [List.foldl_cons]
    exact foldl_reorderVertexBlock_preserve cr a q y rest _
      (reorderVertexBlock_get_preserve cr a w q y out hq
        (fun i hi => hne w (List.mem_cons_self w rest) i hi))
      (fun w2 hw2 => hne w2 (List.mem_cons_of_mem w hw2))

theorem reorderOneAttribute_get (N : Nat) (cr : List Int) (a : GeometryAttribute)
    (hN : cr.length = N)
    (hinj : ∀ (v w : Nat) (n : Int),
      cr[v]? = some n → cr[w]? = some n → n ≠ -1 → v = w)
    (hvals : a.values.length = a.componentsPerAttribute * N)
    (v nx : Nat) (hv : cr[v]? = some ((nx : Nat) : Int))
    (k : Nat) (hk : k < a.componentsPerAttribute) :
    (reorderOneAttribute N cr a).values[a.componentsPerAttribute * nx + k]? =
      a.values[a.componentsPerAttribute * v + k]? := by
  have hvN : v < N := by
    have := (List.getElem?_eq_some_iff.mp hv).1
    omega
  have hgetD : cr.getD v (-1) = ((nx : Nat) : Int) := by
    rw [List.getD_eq_getElem?_getD, hv]
    rfl
  have hin : a.componentsPerAttribute * v + k < a.values.length := by
    rw [hvals]
    have e2 : a.componentsPerAttribute * (v + 1) ≤ a.componentsPerAttribute * N :=
      Nat.mul_le_mul_left _ hvN
    have e1 : a.componentsPerAttribute * (v + 1) =
        a.componentsPerAttribute * v + a.componentsPerAttribute := Nat.mul_succ _ _
    linarith
  have hrhs : a.values[a.componentsPerAttribute * v + k]? =
      some (readQ a.values (a.componentsPerAttribute * v + k)) := by
    rw [readQ, List.getD_eq_getElem?_getD, List.getElem?_eq_getElem hin]
    rfl
  rw [hrhs]
  have hsplit : List.range N =
      (List.range v ++ [v]) ++ (List.range (N - (v + 1))).map ((v + 1) + ·) := by
    rw [← List.range_succ, ← List.range_add]
    congr 1
    omega
  unfold reorderOneAttribute
  simp only
  rw [hsplit, List.foldl_append, List.foldl_append, List.foldl_cons, List.foldl_nil]
  refine foldl_reorderVertexBlock_preserve cr a _ _ _ _
    (reorderVertexBlock_get_write cr a v _ nx hgetD k hk) ?_
  intro w hw i hi he
  obtain ⟨j1, _, rfl⟩ := List.mem_map.mp hw
  have hwv : v + 1 + j1 ≠ v := by omega
  have hne2 : cr.getD (v + 1 + j1) (-1) ≠ ((nx : Nat) : Int) := by
    rcases hcw : cr[v + 1 + j1]? with _ | mw
    · rw [List.getD_eq_getElem?_getD, hcw]
      intro hc
      have h0 : (0 : Int) ≤ ((nx : Nat) : Int) := Int.natCast_nonneg nx
      rw [← hc] at h0
      simp only [Option.getD_none] at h0
      omega
    · rw [List.getD_eq_getElem?_getD, hcw]
      intro hc
      simp only [Option.getD_some] at hc
      subst hc
      exact hwv (hinj (v + 1 + j1) v _ hcw hv (by omega))
  exact block_distinct a.componentsPerAttribute (cr.getD (v + 1 + j1) (-1))
    ((nx : Nat) : Int) i k hi hk hne2 he

/-- Invariant of the index-rewrite loop state: the cross-reference array
keeps its length, every entry is -1 or an already-assigned new index below
`nextIndex`, and every assigned new index belongs to exactly one old
index. -/
structure ReorderInv (N : Nat) (s : ReorderState) : Prop where
  len : s.crossRef.length = N
  range : ∀ (v : Nat) (n : Int),
    s.crossRef[v]? = some n → n = -1 ∨ (0 ≤ n ∧ n < (s.nextIndex : Int))
  inj : ∀ (v w : Nat) (n : Int),
    s.crossRef[v]? = some n → s.crossRef[w]? = some n → n ≠ -1 → v = w

theorem reorderStep_ok (N : Nat) (s : ReorderState) (x : Nat) (hx : x < N)
    (hinv : ReorderInv N s) :
    ∃ s1 nx, reorderStep N s (some x) = .ok s1 ∧ ReorderInv N s1 ∧
      s1.out = s.out ++ [some nx] ∧
      s1.crossRef[x]? = some ((nx : Nat) : Int) ∧
      (∀ (v : Nat) (n : Int),
        s.crossRef[v]? = some n → n ≠ -1 → s1.crossRef[v]? = some n) := by
  have hxl : x < s.crossRef.length := by rw [hinv.len]; exact hx
  obtain ⟨cx, hcx⟩ : ∃ cx, s.crossRef[x]? = some cx :=
    ⟨s.crossRef[x], List.getElem?_eq_getElem hxl⟩
  have hbind : (some x).bind (fun v => s.crossRef[v]?) = some cx := hcx
  by_cases hneg : cx = -1
  · subst hneg
    refine ⟨{ crossRef := s.crossRef.set x ((s.nextIndex : Nat) : Int),
              nextIndex := s.nextIndex + 1,
              out := s.out ++ [some s.nextIndex] }, s.nextIndex, ?_, ?_, rfl,
            getElem?_set_of_lt _ _ _ hxl, ?_⟩
    · unfold reorderStep
      rw [hbind, if_pos rfl]
      simp only
      rw [if_neg (by omega)]
    · refine ⟨by simpa [List.length_set] using hinv.len, ?_, ?_⟩
      · intro v n hvn
        by_cases hvx : v = x
        · subst hvx
          rw [getElem?_set_of_lt _ _ _ hxl] at hvn
          injection hvn with hvn
          subst hvn
          right
          constructor
          · exact Int.natCast_nonneg _
          · show ((s.nextIndex : Nat) : Int) < ((s.nextIndex + 1 : Nat) : Int)
            omega
        · rw [List.getElem?_set_ne (Ne.symm hvx)] at hvn
          rcases hinv.range v n hvn with h1 | ⟨h0, hlt⟩
          · exact Or.inl h1
          · right
            refine ⟨h0, ?_⟩
            show n < ((s.nextIndex + 1 : Nat) : Int)
            omega
      · intro v w n hvn hwn hn
        by_cases hvx : v = x <;> by_cases hwx : w = x
        · rw [hvx, hwx]
        · subst hvx
          rw [getElem?_set_of_lt _ _ _ hxl] at hvn
          injection hvn with hvn
          rw [List.getElem?_set_ne (Ne.symm hwx)] at hwn
          rcases hinv.range w n hwn with h1 | ⟨_, hlt⟩
          · exact absurd h1 hn
          · rw [← hvn] at hlt
            omega
        · subst hwx
          rw [getElem?_set_of_lt _ _ _ hxl] at hwn
          injection hwn with hwn
          rw [List.getElem?_set_ne (Ne.symm hvx)] at hvn
          rcases hinv.range v n hvn with h1 | ⟨_, hlt⟩
          · exact absurd h1 hn
          · rw [← hwn] at hlt
            omega
        · rw [List.getElem?_set_ne (Ne.symm hvx)] at hvn
          rw [List.getElem?_set_ne (Ne.symm hwx)] at hwn
          exact hinv.inj v w n hvn hwn hn
    · intro v n hvn hn
      have hvx : v ≠ x := by
        intro hvx
        subst hvx
        rw [hvn] at hcx
        injection hcx with hcx
        exact hn hcx
      rw [List.getElem?_set_ne (Ne.symm hvx)]
      exact hvn
  · have h0 : 0 ≤ cx := by
      rcases hinv.range x cx hcx with h1 | ⟨h0, _⟩
      · exact absurd h1 hneg
      · exact h0
    refine ⟨{ s with out := s.out ++ [some cx.toNat] }, cx.toNat, ?_,
            ⟨hinv.len, hinv.range, hinv.inj⟩, rfl, ?_, fun v n hvn _ => hvn⟩
    · unfold reorderStep
      rw [hbind, if_neg (by simpa using hneg)]
      rfl
    · rw [hcx, Int.toNat_of_nonneg h0]

theorem reorderIndexList_spec (N : Nat) :
    ∀ (il : List (Option Nat)) (s : ReorderState), ReorderInv N s →
      (∀ e ∈ il, ∃ x, e = some x ∧ x < N) →
      ∃ s2, reorderIndexList N s il = .ok s2 ∧ ReorderInv N s2 ∧
        (∀ (v : Nat) (n : Int),
          s.crossRef[v]? = some n → n ≠ -1 → s2.crossRef[v]? = some n) ∧
        (∃ tail, s2.out = s.out ++ tail ∧ tail.length = il.length) ∧
        (∀ (p x : Nat), il[p]? = some (some x) →
          ∃ nx : Nat, s2.out[s.out.length + p]? = some (some nx) ∧
            s2.crossRef[x]? = some ((nx : Nat) : Int)) := by
  intro il
  induction il with
  | nil =>
    intro s hinv _
    refine ⟨s, rfl, hinv, fun v n h _ => h, ⟨[], by simp, rfl⟩, ?_⟩
    intro p x hp
    simp at hp
  | cons e rest ih =>
    intro s hinv hent
    obtain ⟨x, rfl, hx⟩ := hent e (List.mem_cons_self e rest)
    obtain ⟨s1, nx0, hstep, hinv1, hout1, hcr1, hmono1⟩ := reorderStep_ok N s x hx hinv
    obtain ⟨s2, hrun, hinv2, hmono2, ⟨tail, htail, htlen⟩, hpos⟩ :=
      ih s1 hinv1 (fun e2 he2 => hent e2 (List.mem_cons_of_mem _ he2))
    have hlen1 : s1.out.length = s.out.length + 1 := by
      rw [hout1]
      simp
    refine ⟨s2, ?_, hinv2, ?_, ?_, ?_⟩
    · rw [reorderIndexList, hstep]
      exact hrun
    · intro v n hv hn
      exact hmono2 v n (hmono1 v n hv hn) hn
    · refine ⟨[some nx0] ++ tail, ?_, by simp [htlen]⟩
      rw [htail, hout1, List.append_assoc]
    · intro p x2 hp
      cases p with
      | zero =>
        simp only [List.getElem?_cons_zero, Option.some.injEq] at hp
        subst hp
        refine ⟨nx0, ?_, hmono2 _ _ hcr1 (by omega)⟩
        rw [htail, hout1, List.append_assoc,
          List.getElem?_append_right (by omega)]
        simp
      | succ p1 =>
        obtain ⟨nx, h1, h2⟩ := hpos p1 x2 (by simpa using hp)
        refine ⟨nx, ?_, h2⟩
        rw [show s.out.length + (p1 + 1) = s1.out.length + p1 from by omega]
        exact h1

/-- C1 (code behavior at the failing input): a mesh with one vertex and index
list `[1]`.  The claimed DeveloperError is never thrown: the cross-reference
lookup at the out-of-range index 1 reads past the end of the array, giving
`undefined`, which passes the `tempIndex !== -1` test and is emitted into
the rewritten index list.  The filter returns normally with index list
`[undefined]` (and, since vertex 0 is never referenced, its attribute data
is discarded as well). -/
theorem reorderForPreVertexCache_invalid_index_no_error :
    reorderForPreVertexCache
        (some ⟨[("position", ⟨.FLOAT, 3, false, [0, 0, 0]⟩)],
               some [some 1], .TRIANGLES, none⟩) =
      .ok (some ⟨[("position", ⟨.FLOAT, 3, false, []⟩)],
                 some [none], .TRIANGLES, none⟩) := by
  rfl

/-- C2 (code behavior at the failing input): a mesh with one attribute and no
index list.  The vertex-reordering loop still runs with an all-(-1)
cross-reference, so every attribute block is written to negative array
indices and the attribute values collapse to the empty array: not a no-op. -/
theorem reorderForPreVertexCache_no_indexList_clobbers_values :
    reorderForPreVertexCache
        (some ⟨[("position", ⟨.FLOAT, 3, false, [1, 2, 3]⟩)],
               none, .TRIANGLES, none⟩) =
      .ok (some ⟨[("position", ⟨.FLOAT, 3, false, []⟩)],
                 none, .TRIANGLES, none⟩) ∧
    ([] : List Rat) ≠ [1, 2, 3] :=
  ⟨rfl, by decide⟩

/-- C3: for every mesh whose index list is present with all entries defined
and below the vertex count, and whose attributes all have
`componentsPerAttribute * vertexCount` values, reorderForPreVertexCache
succeeds and preserves vertex-index correspondence: at every position of the
index stream, looking up the new index in any reordered attribute yields the
same component values as looking up the old index in the original
attribute. -/
theorem reorderForPreVertexCache_correspondence
    (m : Geometry) (il : List (Option Nat))
    (hil : m.indexList = some il)
    (hent : ∀ e ∈ il, ∃ x : Nat, e = some x ∧ x < computeNumberOfVertices m)
    (hattr : ∀ p ∈ m.attributes,
      p.2.values.length = p.2.componentsPerAttribute * computeNumberOfVertices m) :
    ∃ (out : List (Option Nat)) (cr : List Int),
      reorderForPreVertexCache (some m) = .ok (some { m with
        indexList := some out,
        attributes := m.attributes.map
          (fun p => (p.1, reorderOneAttribute (computeNumberOfVertices m) cr p.2)) }) ∧
      out.length = il.length ∧
      (∀ (p x : Nat), il[p]? = some (some x) →
        ∃ nx : Nat, out[p]? = some (some nx) ∧
          ∀ pa ∈ m.attributes, ∀ k : Nat, k < pa.2.componentsPerAttribute →
            (reorderOneAttribute (computeNumberOfVertices m) cr pa.2).values[pa.2.componentsPerAttribute * nx + k]? =
              pa.2.values[pa.2.componentsPerAttribute * x + k]?) := by
  have hinv0 : ReorderInv (computeNumberOfVertices m)
      ⟨List.replicate (computeNumberOfVertices m) (-1), 0, []⟩ := by
    refine ⟨List.length_replicate _ _, ?_, ?_⟩
    · intro v n h
      rw [List.getElem?_replicate] at h
      split at h
      · injection h with h
        exact Or.inl h.symm
      · exact absurd h (by simp)
    · intro v w n h1 h2 hn
      rw [List.getElem?_replicate] at h1
      split at h1
      · injection h1 with h1
        exact absurd h1.symm hn
      · exact absurd h1 (by simp)
  obtain ⟨s2, hrun, hinv2, _, ⟨tail, htail, htlen⟩, hpos⟩ :=
    reorderIndexList_spec (computeNumberOfVertices m) il
      ⟨List.replicate (computeNumberOfVertices m) (-1), 0, []⟩ hinv0 hent
  refine ⟨s2.out, s2.crossRef, ?_, ?_, ?_⟩
  · simp only [reorderForPreVertexCache, hil, hrun]
  · rw [htail]
    simpa using htlen
  · intro p x hp
    obtain ⟨nx, h1, h2⟩ := hpos p x hp
    refine ⟨nx, by simpa using h1, ?_⟩
    intro pa hpa k hk
    exact reorderOneAttribute_get (computeNumberOfVertices m) s2.crossRef pa.2
      hinv2.len hinv2.inj (hattr pa hpa) x nx h2 k hk

/-- C3 witness: the correspondence statement evaluated on a two-vertex mesh
with index list `[1, 0, 1]`. -/
theorem reorderForPreVertexCache_correspondence_witness :
    ∃ (out : List (Option Nat)) (cr : List Int),
      reorderForPreVertexCache
          (some ⟨[("position", ⟨.FLOAT, 1, false, [10, 20]⟩)],
                 some [some 1, some 0, some 1], .TRIANGLES, none⟩) =
        .ok (some { (⟨[("position", ⟨.FLOAT, 1, false, [10, 20]⟩)],
                      some [some 1, some 0, some 1], .TRIANGLES, none⟩ : Geometry) with
          indexList := some out,
          attributes := [("position", ⟨.FLOAT, 1, false, [10, 20]⟩)].map
            (fun p => (p.1, reorderOneAttribute
              (computeNumberOfVertices
                ⟨[("position", ⟨.FLOAT, 1, false, [10, 20]⟩)],
                  some [some 1, some 0, some 1], .TRIANGLES, none⟩) cr p.2)) }) ∧
      out.length = ([some 1, some 0, some 1] : List (Option Nat)).length ∧
      (∀ (p x : Nat), ([some 1, some 0, some 1] : List (Option Nat))[p]? = some (some x) →
        ∃ nx : Nat, out[p]? = some (some nx) ∧
          ∀ pa ∈ [("position", (⟨.FLOAT, 1, false, [10, 20]⟩ : GeometryAttribute))],
            ∀ k : Nat, k < pa.2.componentsPerAttribute →
            (reorderOneAttribute
                (computeNumberOfVertices
                  ⟨[("position", ⟨.FLOAT, 1, false, [10, 20]⟩)],
                    some [some 1, some 0, some 1], .TRIANGLES, none⟩) cr pa.2).values[pa.2.componentsPerAttribute * nx + k]? =
              pa.2.values[pa.2.componentsPerAttribute * x + k]?) :=
  reorderForPreVertexCache_correspondence
    ⟨[("position", ⟨.FLOAT, 1, false, [10, 20]⟩)],
      some [some 1, some 0, some 1], .TRIANGLES, none⟩
    [some 1, some 0, some 1] rfl
    (by
      intro e he
      simp only [List.mem_cons, List.not_mem_nil, or_false] at he
      rcases he with rfl | rfl | rfl
      · exact ⟨1, rfl, by decide⟩
      · exact ⟨0, rfl, by decide⟩
      · exact ⟨1, rfl, by decide⟩)
    (by
      intro p hp
      simp only [List.mem_cons, List.not_mem_nil, or_false] at hp
      subst hp
      rfl)

/-! ### GeometryFilters.fitToUnsignedShortIndices (source lines 334-421) -/

/-- Source GeometryFilters._copyAttributesDescriptions (lines 298-314): the
same descriptors with empty value arrays. -/
def copyAttributesDescriptions (attributes : List (String × GeometryAttribute)) :
    List (String × GeometryAttribute) :=
  attributes.map (fun p => (p.1, { p.2 with values := [] }))

/-- The component block pushed for vertex `x` of one attribute by the source
copyVertex (lines 316-326): `attr.values[(index * componentsPerAttribute) + k]`
for `k < componentsPerAttribute`.  An `undefined` index yields undefined
reads, modelled as 0; the theorems only use inputs satisfying the data-model
invariant (defined, in-range indices). -/
def vertexBlock (a : GeometryAttribute) (x : Option Nat) : List Rat :=
  (List.range a.componentsPerAttribute).map (fun k =>
    match x with
    | some v => readQ a.values (v * a.componentsPerAttribute + k)
    | none => 0)

/-- `destinationAttributes[name].values.push(...block)`: append a block to
the named entry of the destination table. -/
def pushBlock (dest : List (String × GeometryAttribute)) (name : String)
    (block : List Rat) : List (String × GeometryAttribute) :=
  dest.map (fun q =>
    if q.1 = name then (q.1, { q.2 with values := q.2.values ++ block }) else q)

/-- Source copyVertex (lines 316-326): for every source attribute, append
vertex `x`'s component block to the same-named destination attribute. -/
def copyVertex (dest src : List (String × GeometryAttribute)) (x : Option Nat) :
    List (String × GeometryAttribute) :=
  src.foldl (fun d p => pushBlock d p.1 (vertexBlock p.2 x)) dest

/-- State of the partitioning loop (lines 357-409).  `oldToNew` is the JS
sparse array `oldToNewIndex`, modelled as a function on keys (JS even
accepts the key `undefined`, hence `Option Nat`).  `newToOld` and the second
component of each `chunks` entry are specification-side ghost data: the old
index each assigned new index stands for, in assignment order.  They do not
feed back into the produced geometries. -/
structure FitState where
  oldToNew : Option Nat → Option Nat
  newToOld : List (Option Nat)
  currentIndex : Nat
  newIndices : List Nat
  newAttributes : List (String × GeometryAttribute)
  chunks : List (Geometry × List (Option Nat))

/-- Lines 372-378 (one of the three identical index steps): look up the old
index, assigning the next new index and copying the vertex on a miss. -/
def fitIndex (src : List (String × GeometryAttribute)) (s : FitState)
    (x : Option Nat) : FitState × Nat :=
  match s.oldToNew x with
  | some n => (s, n)
  | none =>
    ({ s with
        oldToNew := fun y => if y = x then some s.currentIndex else s.oldToNew y,
        newToOld := s.newToOld ++ [x],
        currentIndex := s.currentIndex + 1,
        newAttributes := copyVertex s.newAttributes src x }, s.currentIndex)

/-- Lines 365-408: process one triangle: map its three indices, append them
to the chunk index list, and seal the chunk into a new Geometry when the
next triangle might cross the 64K boundary (`currentIndex + 3 > sixtyFourK`).
The sealed Geometry is created by `createMesh` (lines 335-342) with no
bounding sphere. -/
def fitTriangle (src : List (String × GeometryAttribute)) (pt : PrimitiveType)
    (s : FitState) (t : Option Nat × Option Nat × Option Nat) : FitState :=
  let r1 := fitIndex src s t.1
  let r2 := fitIndex src r1.1 t.2.1
  let r3 := fitIndex src r2.1 t.2.2
  let s4 : FitState := { r3.1 with newIndices := r3.1.newIndices ++ [r1.2, r2.2, r3.2] }
  if 64 * 1024 < s4.currentIndex + 3 then
    { oldToNew := fun _ => none,
      newToOld := [],
      currentIndex := 0,
      newIndices := [],
      newAttributes := copyAttributesDescriptions src,
      chunks := s4.chunks ++
        [((⟨s4.newAttributes, some (s4.newIndices.map some), pt, none⟩ : Geometry),
          s4.newToOld)] }
  else s4

/-- The whole triangle loop (lines 365-409) from the initial state. -/
def fitRun (src : List (String × GeometryAttribute)) (pt : PrimitiveType)
    (il : List (Option Nat)) : FitState :=
  (toTriples il).foldl (fitTriangle src pt)
    ⟨fun _ => none, [], 0, [], copyAttributesDescriptions src, []⟩

/-- The sealed chunks, plus the trailing chunk when `newIndices` is nonempty
(lines 411-413), each paired with its ghost remap. -/
def fitFinalChunks (src : List (String × GeometryAttribute)) (pt : PrimitiveType)
    (il : List (Option Nat)) : List (Geometry × List (Option Nat)) :=
  let s := fitRun src pt il
  if s.newIndices.length ≠ 0 then
    s.chunks ++
      [((⟨s.newAttributes, some (s.newIndices.map some), pt, none⟩ : Geometry),
        s.newToOld)]
  else s.chunks

/-- GeometryFilters.fitToUnsignedShortIndices (lines 334-421). -/
def fitToUnsignedShortIndices (mesh : Option Geometry) :
    Except JsError (List Geometry) :=
  match mesh with
  | none => .ok []
  | some m =>
    if m.primitiveType ≠ PrimitiveType.TRIANGLES then
      .error (.developer "mesh.primitiveType must equal to PrimitiveType.TRIANGLES.")
    else
      match m.indexList with
      | some il =>
        if 64 * 1024 < computeNumberOfVertices m then
          .ok ((fitFinalChunks m.attributes m.primitiveType il).map Prod.fst)
        else
          .ok [m]
      | none => .ok [m]

/-- Map a chunk index list back to old indices through the ghost remap. -/
def mapBackIdx (r : List (Option Nat)) (idx : List Nat) : List (Option Nat) :=
  idx.map (fun n => (r[n]?).bind id)

/-- The attribute table whose value arrays are the concatenated vertex
blocks of the old indices in `r` — the extensional content of the chunk
attribute tables built by repeated copyVertex calls. -/
def accValues (src : List (String × GeometryAttribute)) (r : List (Option Nat)) :
    List (String × GeometryAttribute) :=
  src.map (fun p => (p.1, { p.2 with values := r.flatMap (vertexBlock p.2) }))

/-- The mapped-back index list of a sealed chunk. -/
def mapBackChunk (c : Geometry × List (Option Nat)) : List (Option Nat) :=
  match c.1.indexList with
  | some li => li.map (fun e => e.bind (fun n => (c.2[n]?).bind id))
  | none => []

theorem vertexBlock_length (a : GeometryAttribute) (x : Option Nat) :
    (vertexBlock a x).length = a.componentsPerAttribute := by
  simp [vertexBlock]

theorem flatMap_vertexBlock_length (a : GeometryAttribute) :
    ∀ r : List (Option Nat),
      (r.flatMap (vertexBlock a)).length = r.length * a.componentsPerAttribute
  | [] => by simp
  | x :: rest => by
    simp only [List.flatMap_cons, List.length_append, vertexBlock_length,
      flatMap_vertexBlock_length a rest, List.length_cons]
    ring

theorem pushBlock_of_not_mem (d : List (String × GeometryAttribute))
    (name : String) (b : List Rat) (h : ∀ q ∈ d, q.1 ≠ name) :
    pushBlock d name b = d := by
  unfold pushBlock
  induction d with
  | nil => rfl
  | cons q rest ih =>
    rw [List.map_cons, if_neg (h q (List.mem_cons_self q rest)),
      ih (fun q2 hq2 => h q2 (List.mem_cons_of_mem q hq2))]

theorem foldl_pushBlock_cons (x : Option Nat) (q : String × GeometryAttribute) :
    ∀ (todo : List (String × GeometryAttribute))
      (dest : List (String × GeometryAttribute)),
      (∀ p ∈ todo, p.1 ≠ q.1) →
      todo.foldl (fun d p => pushBlock d p.1 (vertexBlock p.2 x)) (q :: dest) =
        q :: todo.foldl (fun d p => pushBlock d p.1 (vertexBlock p.2 x)) dest
  | [], _, _ => rfl
  | p :: todo2, dest, h => by
    rw [List.foldl_cons, List.foldl_cons]
    have hstep : pushBlock (q :: dest) p.1 (vertexBlock p.2 x) =
        q :: pushBlock dest p.1 (vertexBlock p.2 x) := by
      unfold pushBlock
      rw [List.map_cons,
        if_neg (fun he => h p (List.mem_cons_self p todo2) he.symm)]
    rw [hstep]
    exact foldl_pushBlock_cons x q todo2 _
      (fun p2 hp2 => h p2 (List.mem_cons_of_mem p hp2))

theorem copyVertex_acc (x : Option Nat) :
    ∀ (src : List (String × GeometryAttribute)),
      (src.map Prod.fst).Nodup →
      ∀ r : List (Option Nat),
        copyVertex (accValues src r) src x = accValues src (r ++ [x])
  | [], _, _ => rfl
  | p :: src2, hnd, r => by
    have hnd2 := hnd
    rw [List.map_cons, List.nodup_cons] at hnd2
    obtain ⟨hp, hnd3⟩ := hnd2
    have hne : ∀ p2 ∈ src2, p2.1 ≠ p.1 := by
      intro p2 hp2 he
      exact hp (he ▸ List.mem_map_of_mem Prod.fst hp2)
    show List.foldl (fun d p => pushBlock d p.1 (vertexBlock p.2 x))
        (accValues (p :: src2) r) (p :: src2) = accValues (p :: src2) (r ++ [x])
    rw [List.foldl_cons]
    have htail := pushBlock_of_not_mem (accValues src2 r) p.1 (vertexBlock p.2 x)
      (by
        intro q hq
        obtain ⟨p2, hp2, rfl⟩ := List.mem_map.mp hq
        exact hne p2 hp2)
    have hstep : pushBlock (accValues (p :: src2) r) p.1 (vertexBlock p.2 x) =
        (p.1, { p.2 with values := (r ++ [x]).flatMap (vertexBlock p.2) }) ::
          accValues src2 r := by
      show pushBlock
          ((p.1, { p.2 with values := r.flatMap (vertexBlock p.2) }) ::
            accValues src2 r) p.1 (vertexBlock p.2 x) = _
      unfold pushBlock
      unfold pushBlock at htail
      rw [List.map_cons, if_pos rfl, htail]
      simp [List.flatMap_append]
    rw [hstep]
    rw [foldl_pushBlock_cons x
      (p.1, { p.2 with values := (r ++ [x]).flatMap (vertexBlock p.2) })
      src2 (accValues src2 r) hne]
    rw [show List.foldl (fun d p => pushBlock d p.1 (vertexBlock p.2 x))
        (accValues src2 r) src2 = accValues src2 (r ++ [x]) from
      copyVertex_acc x src2 hnd3 r]
    rfl

/-- Invariant of the partitioning loop between triangles: the ghost remap
enumerates exactly the assignments of `oldToNew`, the chunk attribute table
is the accumulated vertex blocks of the remap, the chunk index list is a
whole number of triangles of already-assigned indices, `currentIndex` stays
a triangle short of the 64K boundary, every sealed chunk is a canonical
Geometry of the same shape, and mapping all indices (sealed and pending)
back through the remaps reproduces the index entries processed so far. -/
structure FitInv (src : List (String × GeometryAttribute)) (pt : PrimitiveType)
    (flat : List (Option Nat)) (s : FitState) : Prop where
  hlen : s.newToOld.length = s.currentIndex
  hbound : s.currentIndex + 3 ≤ 64 * 1024
  hgraph : ∀ (k : Option Nat) (n : Nat), s.oldToNew k = some n ↔ s.newToOld[n]? = some k
  hattrs : s.newAttributes = accValues src s.newToOld
  hidxlt : ∀ n ∈ s.newIndices, n < s.currentIndex
  hmod : s.newIndices.length % 3 = 0
  hchunks : ∀ c ∈ s.chunks, ∃ (idx : List Nat) (r : List (Option Nat)),
    c = ((⟨accValues src r, some (idx.map some), pt, none⟩ : Geometry), r) ∧
    idx.length % 3 = 0 ∧ r.length ≤ 64 * 1024
  htrace : (s.chunks.flatMap mapBackChunk) ++ mapBackIdx s.newToOld s.newIndices = flat

theorem fitIndex_spec (src : List (String × GeometryAttribute))
    (hnd : (src.map Prod.fst).Nodup) (s : FitState) (x : Option Nat)
    (hlen : s.newToOld.length = s.currentIndex)
    (hgraph : ∀ (k : Option Nat) (n : Nat),
      s.oldToNew k = some n ↔ s.newToOld[n]? = some k)
    (hattrs : s.newAttributes = accValues src s.newToOld) :
    ∃ s1 i, fitIndex src s x = (s1, i) ∧
      s1.chunks = s.chunks ∧ s1.newIndices = s.newIndices ∧
      (∃ t, s1.newToOld = s.newToOld ++ t) ∧
      s1.newToOld.length = s1.currentIndex ∧
      s.currentIndex ≤ s1.currentIndex ∧ s1.currentIndex ≤ s.currentIndex + 1 ∧
      (∀ (k : Option Nat) (n : Nat),
        s1.oldToNew k = some n ↔ s1.newToOld[n]? = some k) ∧
      s1.newAttributes = accValues src s1.newToOld ∧
      i < s1.currentIndex ∧ s1.newToOld[i]? = some x := by
  rcases hx : s.oldToNew x with _ | n
  · refine ⟨{ oldToNew := fun y => if y = x then some s.currentIndex else s.oldToNew y,
              newToOld := s.newToOld ++ [x],
              currentIndex := s.currentIndex + 1,
              newIndices := s.newIndices,
              newAttributes := copyVertex s.newAttributes src x,
              chunks := s.chunks },
            s.currentIndex, ?_, rfl, rfl, ⟨[x], rfl⟩, ?_, ?_, ?_, ?_, ?_, ?_, ?_⟩
    · rw [fitIndex, hx]
    · show (s.newToOld ++ [x]).length = s.currentIndex + 1
      simp [hlen]
    · show s.currentIndex ≤ s.currentIndex + 1
      omega
    · show s.currentIndex + 1 ≤ s.currentIndex + 1
      omega
    · intro k n
      show (if k = x then some s.currentIndex else s.oldToNew k) = some n ↔
        (s.newToOld ++ [x])[n]? = some k
      by_cases hk : k = x
      · subst hk
        rw [if_pos rfl]
        constructor
        · intro he
          injection he with he
          subst he
          rw [← hlen, List.getElem?_append_right (le_refl _), Nat.sub_self]
          rfl
        · intro he
          rcases Nat.lt_trichotomy n s.newToOld.length with hlt | heq | hgt
          · rw [List.getElem?_append_left hlt] at he
            have := (hgraph k n).mpr he
            rw [hx] at this
            exact absurd this (by simp)
          · rw [heq, hlen]
          · rw [List.getElem?_eq_none_iff.mpr (by simp; omega)] at he
            exact absurd he (by simp)
      · rw [if_neg hk]
        constructor
        · intro he
          have := (hgraph k n).mp he
          have hnlt : n < s.newToOld.length := (List.getElem?_eq_some_iff.mp this).1
          rw [List.getElem?_append_left hnlt]
          exact this
        · intro he
          rcases Nat.lt_trichotomy n s.newToOld.length with hlt | heq | hgt
          · rw [List.getElem?_append_left hlt] at he
            exact (hgraph k n).mpr he
          · rw [heq] at he
            rw [List.getElem?_append_right (le_refl _), Nat.sub_self] at he
            injection he with he
            exact absurd he.symm hk
          · rw [List.getElem?_eq_none_iff.mpr (by simp; omega)] at he
            exact absurd he (by simp)
    · show copyVertex s.newAttributes src x = accValues src (s.newToOld ++ [x])
      rw [hattrs]
      exact copyVertex_acc x src hnd s.newToOld
    · show s.currentIndex < s.currentIndex + 1
      omega
    · show (s.newToOld ++ [x])[s.currentIndex]? = some x
      rw [← hlen, List.getElem?_append_right (le_refl _), Nat.sub_self]
      rfl
  · refine ⟨s, n, ?_, rfl, rfl, ⟨[], by simp⟩, hlen, le_refl _, by omega,
      hgraph, hattrs, ?_, (hgraph x n).mp hx⟩
    · rw [fitIndex, hx]
    · have h1 := (hgraph x n).mp hx
      have hnlt : n < s.newToOld.length := (List.getElem?_eq_some_iff.mp h1).1
      omega

theorem mapBackIdx_append (r : List (Option Nat)) (idx1 idx2 : List Nat) :
    mapBackIdx r (idx1 ++ idx2) = mapBackIdx r idx1 ++ mapBackIdx r idx2 := by
  simp [mapBackIdx]

theorem mapBackIdx_prefix (r ext : List (Option Nat)) (idx : List Nat)
    (h : ∀ n ∈ idx, n < r.length) :
    mapBackIdx (r ++ ext) idx = mapBackIdx r idx := by
  unfold mapBackIdx
  refine List.map_congr_left ?_
  intro n hn
  rw [List.getElem?_append_left (h n hn)]

theorem mapBackChunk_canonical (attrs : List (String × GeometryAttribute))
    (idx : List Nat) (r : List (Option Nat)) (pt : PrimitiveType) :
    mapBackChunk ((⟨attrs, some (idx.map some), pt, none⟩ : Geometry), r) =
      mapBackIdx r idx := by
  unfold mapBackChunk mapBackIdx
  simp only [List.map_map]
  refine List.map_congr_left ?_
  intro n _
  rfl

theorem copyAttributesDescriptions_acc (src : List (String × GeometryAttribute)) :
    copyAttributesDescriptions src = accValues src [] := by
  unfold copyAttributesDescriptions accValues
  rfl

theorem fitTriangle_spec (src : List (String × GeometryAttribute))
    (hnd : (src.map Prod.fst).Nodup) (pt : PrimitiveType)
    (flat : List (Option Nat)) (s : FitState)
    (t : Option Nat × Option Nat × Option Nat)
    (hinv : FitInv src pt flat s) :
    FitInv src pt (flat ++ [t.1, t.2.1, t.2.2]) (fitTriangle src pt s t) := by
  obtain ⟨hsLen, hsBound, hsGraph, hsAttrs, hsIdxlt, hsMod, hsChunks, hsTrace⟩ := hinv
  obtain ⟨s1, i0, he1, hc1, hn1, ⟨t1, ht1⟩, hl1, hle1a, hle1b, hg1, ha1, hi1lt, hm1⟩ :=
    fitIndex_spec src hnd s t.1 hsLen hsGraph hsAttrs
  obtain ⟨s2, i1, he2, hc2, hn2, ⟨t2, ht2⟩, hl2, hle2a, hle2b, hg2, ha2, hi2lt, hm2⟩ :=
    fitIndex_spec src hnd s1 t.2.1 hl1 hg1 ha1
  obtain ⟨s3, i2, he3, hc3, hn3, ⟨t3, ht3⟩, hl3, hle3a, hle3b, hg3, ha3, hi3lt, hm3⟩ :=
    fitIndex_spec src hnd s2 t.2.2 hl2 hg2 ha2
  have hchunks3 : s3.chunks = s.chunks := by rw [hc3, hc2, hc1]
  have hnew3 : s3.newIndices = s.newIndices := by rw [hn3, hn2, hn1]
  have heval : fitTriangle src pt s t =
      (if 64 * 1024 < s3.currentIndex + 3 then
        { oldToNew := fun _ => none,
          newToOld := [],
          currentIndex := 0,
          newIndices := [],
          newAttributes := copyAttributesDescriptions src,
          chunks := s3.chunks ++
            [((⟨s3.newAttributes, some ((s3.newIndices ++ [i0, i1, i2]).map some),
                pt, none⟩ : Geometry), s3.newToOld)] }
      else { s3 with newIndices := s3.newIndices ++ [i0, i1, i2] } : FitState) := by
    simp only [fitTriangle, he1, he2, he3]
  have hb0 : s3.newToOld[i0]? = some t.1 := by
    rw [ht3, List.getElem?_append_left (by omega), ht2,
      List.getElem?_append_left (by omega)]
    exact hm1
  have hb1 : s3.newToOld[i1]? = some t.2.1 := by
    rw [ht3, List.getElem?_append_left (by omega)]
    exact hm2
  have hb2 : s3.newToOld[i2]? = some t.2.2 := hm3
  obtain ⟨ext, hext⟩ : ∃ ext, s3.newToOld = s.newToOld ++ ext := by
    refine ⟨t1 ++ (t2 ++ t3), ?_⟩
    rw [ht3, ht2, ht1, List.append_assoc, List.append_assoc]
  have hmb : mapBackIdx s3.newToOld (s3.newIndices ++ [i0, i1, i2]) =
      mapBackIdx s.newToOld s.newIndices ++ [t.1, t.2.1, t.2.2] := by
    rw [hnew3, mapBackIdx_append]
    congr 1
    · rw [hext]
      refine mapBackIdx_prefix s.newToOld ext s.newIndices ?_
      intro n hn
      have := hsIdxlt n hn
      omega
    · unfold mapBackIdx
      simp only [List.map_cons, List.map_nil, hb0, hb1, hb2]
      rfl
  have hmod3 : (s3.newIndices ++ [i0, i1, i2]).length % 3 = 0 := by
    simp only [List.length_append, List.length_cons, List.length_nil, hnew3]
    omega
  have hc3bound : s3.currentIndex ≤ s.currentIndex + 3 := by omega
  rw [heval]
  by_cases hseal : 64 * 1024 < s3.currentIndex + 3
  · rw [if_pos hseal]
    refine ⟨rfl, (by omega : (0 : Nat) + 3 ≤ 64 * 1024),
      by intro k n; simp, copyAttributesDescriptions_acc src,
      by intro n hn; exact absurd hn (List.not_mem_nil n), rfl, ?_, ?_⟩
    · intro c hc
      simp only [List.mem_append, List.mem_cons, List.not_mem_nil, or_false] at hc
      rcases hc with hc | hc
      · exact hsChunks c (hchunks3 ▸ hc)
      · refine ⟨s3.newIndices ++ [i0, i1, i2], s3.newToOld, ?_, hmod3, by omega⟩
        rw [hc, ha3]
    · show ((s3.chunks ++ [_]).flatMap mapBackChunk) ++ mapBackIdx [] [] = _
      rw [List.flatMap_append]
      simp only [List.flatMap_cons, List.flatMap_nil, List.append_nil]
      rw [ha3, mapBackChunk_canonical]
      show (s3.chunks.flatMap mapBackChunk) ++
          mapBackIdx s3.newToOld (s3.newIndices ++ [i0, i1, i2]) ++
          mapBackIdx [] [] = _
      rw [hmb, hchunks3]
      rw [show mapBackIdx [] [] = [] from rfl, List.append_nil, ← List.append_assoc]
      rw [hsTrace]
  · rw [if_neg hseal]
    refine ⟨hl3, ?_, hg3, ha3, ?_, hmod3, ?_, ?_⟩
    · show s3.currentIndex + 3 ≤ 64 * 1024
      omega
    · intro n hn
      show n < s3.currentIndex
      have hn2 : n ∈ s3.newIndices ++ [i0, i1, i2] := hn
      simp only [List.mem_append, List.mem_cons, List.not_mem_nil, or_false,
        hnew3] at hn2
      rcases hn2 with hn2 | rfl | rfl | rfl
      · have := hsIdxlt n hn2
        omega
      · omega
      · omega
      · omega
    · intro c hc
      exact hsChunks c (hchunks3 ▸ hc)
    · show (s3.chunks.flatMap mapBackChunk) ++
        mapBackIdx s3.newToOld (s3.newIndices ++ [i0, i1, i2]) = _
      rw [hmb, hchunks3, ← List.append_assoc, hsTrace]

theorem toTriples_flatMap :
    ∀ il : List (Option Nat), il.length % 3 = 0 →
      (toTriples il).flatMap (fun t => [t.1, t.2.1, t.2.2]) = il
  | [], _ => rfl
  | [_], h => by simp at h
  | [_, _], h => by simp at h
  | a :: b :: c :: rest, h => by
    have hr : rest.length % 3 = 0 := by
      simp only [List.length_cons] at h
      omega
    simp only [toTriples, List.flatMap_cons, toTriples_flatMap rest hr]
    rfl

theorem fitRun_foldl_inv (src : List (String × GeometryAttribute))
    (pt : PrimitiveType) (hnd : (src.map Prod.fst).Nodup) :
    ∀ (ts : List (Option Nat × Option Nat × Option Nat)) (s : FitState)
      (flat : List (Option Nat)), FitInv src pt flat s →
      FitInv src pt (flat ++ ts.flatMap (fun t => [t.1, t.2.1, t.2.2]))
        (ts.foldl (fitTriangle src pt) s)
  | [], s, flat, hinv => by simpa using hinv
  | t :: ts2, s, flat, hinv => by
    have h2 := fitRun_foldl_inv src pt hnd ts2 (fitTriangle src pt s t)
      (flat ++ [t.1, t.2.1, t.2.2]) (fitTriangle_spec src hnd pt flat s t hinv)
    rw [List.foldl_cons, List.flatMap_cons, ← List.append_assoc]
    exact h2

theorem fitRun_inv (src : List (String × GeometryAttribute)) (pt : PrimitiveType)
    (hnd : (src.map Prod.fst).Nodup) (il : List (Option Nat))
    (hmod : il.length % 3 = 0) : FitInv src pt il (fitRun src pt il) := by
  have h0 : FitInv src pt []
      ⟨fun _ => none, [], 0, [], copyAttributesDescriptions src, []⟩ := by
    refine ⟨rfl, (by omega : (0 : Nat) + 3 ≤ 64 * 1024), by intro k n; simp,
      copyAttributesDescriptions_acc src,
      by intro n hn; exact absurd hn (List.not_mem_nil n), rfl,
      by intro c hc; exact absurd hc (List.not_mem_nil c), rfl⟩
  have h1 := fitRun_foldl_inv src pt hnd (toTriples il)
    ⟨fun _ => none, [], 0, [], copyAttributesDescriptions src, []⟩ [] h0
  rw [List.nil_append, toTriples_flatMap il hmod] at h1
  exact h1

theorem computeNumberOfVertices_cons (n0 : String) (a0 : GeometryAttribute)
    (rest : List (String × GeometryAttribute)) (il2 : Option (List (Option Nat)))
    (pt : PrimitiveType) (bs : Option BoundingSphere) :
    computeNumberOfVertices ⟨(n0, a0) :: rest, il2, pt, bs⟩ =
      a0.values.length / a0.componentsPerAttribute := rfl

theorem count_accValues_cons (n0 : String) (a0 : GeometryAttribute)
    (rest : List (String × GeometryAttribute)) (r : List (Option Nat))
    (il2 : Option (List (Option Nat))) (pt : PrimitiveType)
    (bs : Option BoundingSphere) (hc0 : 0 < a0.componentsPerAttribute) :
    computeNumberOfVertices ⟨accValues ((n0, a0) :: rest) r, il2, pt, bs⟩ =
      r.length := by
  show (r.flatMap (vertexBlock a0)).length / a0.componentsPerAttribute = r.length
  rw [flatMap_vertexBlock_length, Nat.mul_div_cancel _ hc0]

/-- C4: for every TRIANGLES mesh with an index list of length a multiple of
3, defined in-range indices, and more than 65536 vertices, every chunk
produced by fitToUnsignedShortIndices has at most 65536 vertices and an
index list of length a multiple of 3 (no split triangle), and mapping every
chunk's indices back through that chunk's vertex remap and concatenating in
chunk order reproduces the original index stream. -/
theorem fitToUnsignedShortIndices_spec (m : Geometry) (il : List (Option Nat))
    (hpt : m.primitiveType = .TRIANGLES)
    (hil : m.indexList = some il)
    (hmod : il.length % 3 = 0)
    (_hval : ∀ e ∈ il, ∃ x : Nat, e = some x ∧ x < computeNumberOfVertices m)
    (hbig : 64 * 1024 < computeNumberOfVertices m)
    (hnd : (m.attributes.map Prod.fst).Nodup) :
    ∃ cs : List (Geometry × List (Option Nat)),
      fitToUnsignedShortIndices (some m) = .ok (cs.map Prod.fst) ∧
      (∀ c ∈ cs, computeNumberOfVertices c.1 ≤ 64 * 1024 ∧
        ∃ li, c.1.indexList = some li ∧ li.length % 3 = 0) ∧
      cs.flatMap mapBackChunk = il := by
  have hinv := fitRun_inv m.attributes m.primitiveType hnd il hmod
  refine ⟨fitFinalChunks m.attributes m.primitiveType il, ?_, ?_, ?_⟩
  · simp only [fitToUnsignedShortIndices, hil, hpt]
    rw [if_neg (by simp), if_pos hbig]
  · intro c hc
    have hcanon : ∃ (idx : List Nat) (r : List (Option Nat)),
        c = ((⟨accValues m.attributes r, some (idx.map some),
          m.primitiveType, none⟩ : Geometry), r) ∧
        idx.length % 3 = 0 ∧ r.length ≤ 64 * 1024 := by
      unfold fitFinalChunks at hc
      by_cases hne :
        (fitRun m.attributes m.primitiveType il).newIndices.length ≠ 0
      · rw [if_pos hne] at hc
        simp only [List.mem_append, List.mem_cons, List.not_mem_nil,
          or_false] at hc
        rcases hc with hc | hc
        · exact hinv.hchunks c hc
        · refine ⟨(fitRun m.attributes m.primitiveType il).newIndices,
            (fitRun m.attributes m.primitiveType il).newToOld, ?_,
            hinv.hmod, ?_⟩
          · rw [hc, hinv.hattrs]
          · have hb := hinv.hbound
            have hl := hinv.hlen
            omega
      · rw [if_neg hne] at hc
        exact hinv.hchunks c hc
    obtain ⟨idx, r, hcform, hcmod, hcbound⟩ := hcanon
    subst hcform
    constructor
    · rcases hsrc : m.attributes with _ | ⟨⟨n0, a0⟩, rest⟩
      · rw [show computeNumberOfVertices m = 0 from by
          unfold computeNumberOfVertices; rw [hsrc]] at hbig
        omega
      · have hcnt : computeNumberOfVertices m =
            a0.values.length / a0.componentsPerAttribute := by
          unfold computeNumberOfVertices
          rw [hsrc]
        have hc0 : 0 < a0.componentsPerAttribute := by
          by_contra hc0
          push_neg at hc0
          have hz : a0.componentsPerAttribute = 0 := by omega
          rw [hcnt, hz, Nat.div_zero] at hbig
          omega
      -- the chunk head attribute is the head of the source attributes
        show computeNumberOfVertices
          (⟨accValues ((n0, a0) :: rest) r, some (idx.map some),
            m.primitiveType, none⟩ : Geometry) ≤ 64 * 1024
        rw [count_accValues_cons n0 a0 rest r _ _ _ hc0]
        exact hcbound
    · exact ⟨idx.map some, rfl, by simpa using hcmod⟩
  · unfold fitFinalChunks
    by_cases hne :
      (fitRun m.attributes m.primitiveType il).newIndices.length ≠ 0
    · rw [if_pos hne, List.flatMap_append]
      simp only [List.flatMap_cons, List.flatMap_nil, List.append_nil]
      rw [mapBackChunk_canonical]
      exact hinv.htrace
    · rw [if_neg hne]
      push_neg at hne
      have h0 : (fitRun m.attributes m.primitiveType il).newIndices = [] :=
        List.length_eq_zero.mp hne
      have ht := hinv.htrace
      rw [h0] at ht
      simpa [mapBackIdx] using ht

/-- A mesh with 65537 one-component vertices and one triangle, for the C4
witness. -/
def fitWitnessMesh : Geometry :=
  ⟨[("p", ⟨.FLOAT, 1, false, List.replicate 65537 (0 : Rat)⟩)],
    some [some 0, some 1, some 2], .TRIANGLES, none⟩

/-- C4 witness: the partitioning statement evaluated on `fitWitnessMesh`. -/
theorem fitToUnsignedShortIndices_spec_witness :
    ∃ cs : List (Geometry × List (Option Nat)),
      fitToUnsignedShortIndices (some fitWitnessMesh) = .ok (cs.map Prod.fst) ∧
      (∀ c ∈ cs, computeNumberOfVertices c.1 ≤ 64 * 1024 ∧
        ∃ li, c.1.indexList = some li ∧ li.length % 3 = 0) ∧
      cs.flatMap mapBackChunk = [some 0, some 1, some 2] := by
  have hcnt : computeNumberOfVertices fitWitnessMesh = 65537 := by
    unfold fitWitnessMesh
    rw [computeNumberOfVertices_cons]
    rw [show (⟨.FLOAT, 1, false, List.replicate 65537 (0 : Rat)⟩ :
        GeometryAttribute).values = List.replicate 65537 (0 : Rat) from rfl]
    rw [show (⟨.FLOAT, 1, false, List.replicate 65537 (0 : Rat)⟩ :
        GeometryAttribute).componentsPerAttribute = 1 from rfl]
    rw [List.length_replicate, Nat.div_one]
  refine fitToUnsignedShortIndices_spec fitWitnessMesh [some 0, some 1, some 2]
    rfl rfl (by decide) ?_ (by rw [hcnt]; omega) (by exact List.nodup_singleton "p")
  intro e he
  simp only [List.mem_cons, List.not_mem_nil, or_false] at he
  rcases he with rfl | rfl | rfl
  · exact ⟨0, rfl, by rw [hcnt]; omega⟩
  · exact ⟨1, rfl, by rw [hcnt]; omega⟩
  · exact ⟨2, rfl, by rw [hcnt]; omega⟩

/-! ### GeometryFilters.transformToWorldCoordinates (source lines 529-606) -/

/-- The Matrix4/Matrix3 operations used by transformToWorldCoordinates.
These live in Matrix4.js / Matrix3.js / Cartesian3.js, which are external
collaborators (not part of src/), so the filter is modelled relative to an
arbitrary implementation of this interface.  A Matrix3 is `List Rat` like
`Matrix4`. -/
structure Mat4Ops where
  inverse : Matrix4 → Matrix4
  transpose : Matrix4 → Matrix4
  getRotation : Matrix4 → List Rat
  multiplyByPoint : Matrix4 → (Rat × Rat × Rat) → (Rat × Rat × Rat)
  multiplyByVector : List Rat → (Rat × Rat × Rat) → (Rat × Rat × Rat)

/-- One stride-3 in-place rewrite pass (the loops of `transformPoint` /
`transformVector`, lines 531-557): each 3-component block is read, mapped,
and written back.  A ragged tail reads `undefined` (modelled 0) and the
write-back extends the array to a full block, as in JS. -/
def mapTriples (f : (Rat × Rat × Rat) → (Rat × Rat × Rat)) : List Rat → List Rat
  | x :: y :: z :: rest => (f (x, y, z)).1 :: (f (x, y, z)).2.1 :: (f (x, y, z)).2.2 ::
      mapTriples f rest
  | [x, y] => [(f (x, y, 0)).1, (f (x, y, 0)).2.1, (f (x, y, 0)).2.2]
  | [x] => [(f (x, 0, 0)).1, (f (x, 0, 0)).2.1, (f (x, 0, 0)).2.2]
  | [] => []

/-- Source transformPoint (lines 531-543): no-op on an absent attribute. -/
def transformPoint (ops : Mat4Ops) (matrix : Matrix4)
    (attrib : Option GeometryAttribute) : Option GeometryAttribute :=
  match attrib with
  | none => none
  | some a => some { a with values := mapTriples (ops.multiplyByPoint matrix) a.values }

/-- Source transformVector (lines 545-557): no-op on an absent attribute. -/
def transformVector (ops : Mat4Ops) (matrix : List Rat)
    (attrib : Option GeometryAttribute) : Option GeometryAttribute :=
  match attrib with
  | none => none
  | some a => some { a with values := mapTriples (ops.multiplyByVector matrix) a.values }

/-- Store back an in-place mutated attribute (absent attribute: nothing was
mutated). -/
def setAttr (attrs : List (String × GeometryAttribute)) (name : String) :
    Option GeometryAttribute → List (String × GeometryAttribute)
  | none => attrs
  | some a2 => attrs.map (fun q => if q.1 = name then (q.1, a2) else q)

/-- GeometryFilters.transformToWorldCoordinates (lines 564-606), relative to
the matrix collaborator `ops`.  The result pairs the final state of the
passed instance with the JS return value: the identity-matrix path executes
`return;`, handing `undefined` back while leaving the instance untouched;
the transform path returns the (mutated) instance itself. -/
def transformToWorldCoordinates (ops : Mat4Ops) :
    Option GeometryInstance → Except JsError (GeometryInstance × Option GeometryInstance)
  | none => .error (.developer "instance is required.")
  | some inst =>
    if inst.modelMatrix = Matrix4.IDENTITY then
      .ok (inst, none)
    else
      let attrs0 := inst.geometry.attributes
      let attrs1 := setAttr attrs0 "position"
        (transformPoint ops inst.modelMatrix (jsGet attrs0 "position"))
      let attrs2 :=
        if (jsGet attrs1 "normal").isSome || (jsGet attrs1 "binormal").isSome ||
            (jsGet attrs1 "tangent").isSome then
          let normalMatrix := ops.getRotation (ops.transpose (ops.inverse inst.modelMatrix))
          let a2 := setAttr attrs1 "normal"
            (transformVector ops normalMatrix (jsGet attrs1 "normal"))
          let a3 := setAttr a2 "binormal"
            (transformVector ops normalMatrix (jsGet a2 "binormal"))
          setAttr a3 "tangent" (transformVector ops normalMatrix (jsGet a3 "tangent"))
        else attrs1
      let bs := inst.geometry.boundingSphere.map
        (fun b => { b with center := ops.multiplyByPoint inst.modelMatrix b.center })
      let inst2 : GeometryInstance :=
        { geometry := { inst.geometry with attributes := attrs2, boundingSphere := bs },
          modelMatrix := Matrix4.IDENTITY }
      .ok (inst2, some inst2)

/-- C10: for every matrix collaborator and every instance whose modelMatrix
is the identity, transformToWorldCoordinates leaves the instance (geometry
and modelMatrix) unchanged but returns undefined instead of the instance;
on the non-identity path it returns the instance it produced — so a caller
that always uses the returned value receives nothing on the identity
path. -/
theorem transformToWorldCoordinates_identity_returns_undefined :
    (∀ (ops : Mat4Ops) (inst : GeometryInstance),
      inst.modelMatrix = Matrix4.IDENTITY →
      transformToWorldCoordinates ops (some inst) = .ok (inst, none)) ∧
    (∀ (ops : Mat4Ops) (inst : GeometryInstance),
      inst.modelMatrix ≠ Matrix4.IDENTITY →
      ∃ inst2, transformToWorldCoordinates ops (some inst) = .ok (inst2, some inst2)) := by
  constructor
  · intro ops inst h
    simp only [transformToWorldCoordinates]
    rw [if_pos h]
  · intro ops inst h
    simp only [transformToWorldCoordinates]
    simp only [if_neg h]
    exact ⟨_, rfl⟩

/-- Identity implementations of the matrix collaborator, for the witness. -/
def idOps : Mat4Ops :=
  ⟨id, id, fun _ => [], fun _ p => p, fun _ v => v⟩

/-- C10 witness: both paths evaluated at concrete instances. -/
theorem transformToWorldCoordinates_identity_returns_undefined_witness :
    transformToWorldCoordinates idOps
        (some ⟨⟨[], none, .POINTS, none⟩, Matrix4.IDENTITY⟩) =
      .ok (⟨⟨[], none, .POINTS, none⟩, Matrix4.IDENTITY⟩, none) ∧
    ∃ inst2, transformToWorldCoordinates idOps
        (some ⟨⟨[], none, .POINTS, none⟩,
          ([0, 0, 0, 0, 0, 0, 0, 0, 0, 0, 0, 0, 0, 0, 0, 0] : Matrix4)⟩) =
      .ok (inst2, some inst2) :=
  ⟨transformToWorldCoordinates_identity_returns_undefined.1 idOps
      ⟨⟨[], none, .POINTS, none⟩, Matrix4.IDENTITY⟩ rfl,
    transformToWorldCoordinates_identity_returns_undefined.2 idOps
      ⟨⟨[], none, .POINTS, none⟩,
        ([0, 0, 0, 0, 0, 0, 0, 0, 0, 0, 0, 0, 0, 0, 0, 0] : Matrix4)⟩
      (by decide)⟩

/-! ### GeometryFilters.combine (source lines 608-797) -/

/-- The per-instance attribute compatibility test of
findAttributesInAllGeometries (lines 626-629): present with the same
componentDatatype, componentsPerAttribute and normalize flag. -/
def attrMatches (a b : GeometryAttribute) : Bool :=
  decide (a.componentDatatype = b.componentDatatype) &&
    decide (a.componentsPerAttribute = b.componentsPerAttribute) &&
    decide (a.normalize = b.normalize)

/-- Source findAttributesInAllGeometries (lines 608-651).  An attribute of
the first instance survives when every other instance carries a compatible
attribute of the same name; the surviving descriptor is allocated a fresh
zero buffer sized to the total component count.
`componentDatatype.createTypedArray` lives in ComponentDatatype.js (not in
src/); modelled from the spec as a fresh numeric buffer of the requested
size (typed arrays are zero-initialised). -/
def findAttributesInAllGeometries (instances : List GeometryInstance) :
    List (String × GeometryAttribute) :=
  match instances with
  | [] => []
  | inst0 :: rest =>
    inst0.geometry.attributes.foldl (fun acc p =>
      if (rest.map (fun i => jsGet i.geometry.attributes p.1)).all (fun o =>
          match o with
          | some ob => attrMatches p.2 ob
          | none => false) then
        jsSet acc p.1
          ⟨p.2.componentDatatype, p.2.componentsPerAttribute, p.2.normalize,
            List.replicate
              (p.2.values.length +
                (rest.map (fun i =>
                  ((jsGet i.geometry.attributes p.1).map
                    (fun ob => ob.values.length)).getD 0)).sum) 0⟩
      else acc) []

/-- Sequential writes `values[k++] = v` into a preallocated typed array:
writes beyond the allocated length are discarded, unwritten slots keep
their zero initialisation. -/
def typedStore (alloc data : List Rat) : List Rat :=
  data.take alloc.length ++ alloc.drop (min data.length alloc.length)

/-- The attribute-combination loop (lines 692-706): fill every surviving
attribute with the concatenation of the instances' value arrays in input
order.  A survivor is present in every instance, so the lookup never
misses; a miss would be a JS crash and is modelled as an empty
contribution. -/
def fillAttributes (instances : List GeometryInstance)
    (survivors : List (String × GeometryAttribute)) :
    List (String × GeometryAttribute) :=
  survivors.map (fun p => (p.1,
    { p.2 with values :=
        (typedStore p.2.values (instances.flatMap (fun i =>
          ((jsGet i.geometry.attributes p.1).map GeometryAttribute.values).getD []))) }))

/-- The index-combination loop (lines 748-770): append each instance's
indices shifted by the running `offset`, then advance the offset by the
instance's first-attribute vertex count (`values.length /
componentsPerAttribute` of the first key, lines 763-769; no attributes, no
advance).  Every stored value passes through the typed index array:
`ToUintN(offset + index)` is `(offset + index) % width` for a defined
index and 0 (`ToUintN(NaN)`) for an `undefined` entry. -/
def combineIndexLists (width : Nat) : List GeometryInstance → Nat → List Nat
  | [], _ => []
  | i :: rest, offset =>
    (i.geometry.indexList.getD []).map (fun e =>
      match e with
      | some v => (offset + v) % width
      | none => 0) ++
    combineIndexLists width rest
      (offset +
        (match i.geometry.attributes with
        | [] => 0
        | (_, a) :: _ => a.values.length / a.componentsPerAttribute))

/-- The bounding-sphere union loop (lines 772-788), relative to the
BoundingSphere.union collaborator (BoundingSphere.js is not in src/): any
absent sphere makes the combined sphere absent, otherwise the spheres are
united left to right. -/
def combineBS (union : BoundingSphere → BoundingSphere → BoundingSphere) :
    List GeometryInstance → Option BoundingSphere → Option BoundingSphere
  | [], acc => acc
  | i :: rest, acc =>
    match i.geometry.boundingSphere with
    | none => none
    | some bs =>
      match acc with
      | none => combineBS union rest (some bs)
      | some acc2 => combineBS union rest (some (union acc2 bs))

/-- GeometryFilters.combine (lines 659-797), relative to the bounding-sphere
union collaborator.  The input `none` is an absent argument.  Reading
`indexList.length` of a geometry without an index list is a JS TypeError
(line 719 onwards), modelled as `JsError.typeErr`. -/
def combine (union : BoundingSphere → BoundingSphere → BoundingSphere) :
    Option (List GeometryInstance) → Except JsError Geometry
  | none =>
    .error (.developer "instances is required and must have length greater than zero.")
  | some [] =>
    .error (.developer "instances is required and must have length greater than zero.")
  | some [inst] => .ok inst.geometry
  | some (inst0 :: inst1 :: rest2) =>
    if (inst1 :: rest2).any (fun i => decide (¬ i.modelMatrix = inst0.modelMatrix)) then
      .error (.developer "All instances must have the same modelMatrix.")
    else
      let insts := inst0 :: inst1 :: rest2
      let attrs := fillAttributes insts (findAttributesInAllGeometries insts)
      if insts.any (fun i => decide (i.geometry.indexList = none)) then
        .error (.typeErr "Cannot read property length of undefined")
      else
        let num : Nat :=
          (insts.map (fun i => (i.geometry.indexList.getD []).length)).sum
        let width : Nat := if num < 60 * 1024 then 65536 else 4294967296
        .ok ⟨attrs, some ((combineIndexLists width insts 0).map some),
          inst0.geometry.primitiveType, combineBS union insts none⟩

/-- C5: combine fails with a DeveloperError exactly when the instance list
is absent or empty, or has at least two elements and contains an instance
whose modelMatrix differs from the first instance's; and a single-element
list never fails: its geometry is returned unchanged.  (A present but
index-list-free geometry in a two-or-more merge crashes with a TypeError,
which is a different failure kind and not a structural error.) -/
theorem combine_structural_error_iff
    (union : BoundingSphere → BoundingSphere → BoundingSphere) :
    (∀ instances : Option (List GeometryInstance),
      (∃ msg, combine union instances = .error (.developer msg)) ↔
        (instances = none ∨ instances = some [] ∨
          ∃ (inst0 inst1 : GeometryInstance) (rest2 : List GeometryInstance),
            instances = some (inst0 :: inst1 :: rest2) ∧
            ∃ i ∈ inst1 :: rest2, i.modelMatrix ≠ inst0.modelMatrix)) ∧
    (∀ inst : GeometryInstance, combine union (some [inst]) = .ok inst.geometry) := by
  constructor
  · intro instances
    rcases instances with _ | ls
    · constructor
      · intro _
        exact Or.inl rfl
      · intro _
        exact ⟨"instances is required and must have length greater than zero.", rfl⟩
    · rcases ls with _ | ⟨inst0, ls2⟩
      · constructor
        · intro _
          exact Or.inr (Or.inl rfl)
        · intro _
          exact ⟨"instances is required and must have length greater than zero.", rfl⟩
      · rcases ls2 with _ | ⟨inst1, rest2⟩
        · constructor
          · rintro ⟨msg, hmsg⟩
            simp [combine] at hmsg
          · rintro (h | h | ⟨i0, i1, r2, heq, _⟩)
            · exact absurd h (by simp)
            · exact absurd h (by simp)
            · exact absurd heq (by simp)
        · constructor
          · rintro ⟨msg, hmsg⟩
            refine Or.inr (Or.inr ⟨inst0, inst1, rest2, rfl, ?_⟩)
            by_cases hmm2 : ((inst1 :: rest2).any
                (fun i => decide (¬ i.modelMatrix = inst0.modelMatrix))) = true
            · simpa using hmm2
            · simp only [combine] at hmsg
              rw [if_neg hmm2] at hmsg
              split at hmsg
              · exact absurd hmsg (by simp)
              · exact absurd hmsg (by simp)
          · rintro (h | h | ⟨i0, i1, r2, heq, hex⟩)
            · exact absurd h (by simp)
            · exact absurd h (by simp)
            · injection heq with heq
              injection heq with h0 heq
              injection heq with h1 h2
              subst h0
              subst h1
              subst h2
              refine ⟨"All instances must have the same modelMatrix.", ?_⟩
              have hany : ((inst1 :: rest2).any
                  (fun i => decide (¬ i.modelMatrix = inst0.modelMatrix))) = true := by
                simp only [List.any_eq_true, decide_eq_true_eq]
                exact hex
              simp only [combine]
              rw [if_pos hany]
  · intro inst
    rfl

theorem jsGet_mem {α β : Type} [DecidableEq α] :
    ∀ (l : List (α × β)) (k : α) (v : β), jsGet l k = some v → (k, v) ∈ l
  | [], _, _, h => by simp [jsGet] at h
  | p :: rest, k, v, h => by
    by_cases hp : p.1 = k
    · rw [jsGet, if_pos hp] at h
      injection h with h
      subst h
      subst hp
      exact List.mem_cons_self p rest
    · rw [jsGet, if_neg hp] at h
      exact List.mem_cons_of_mem p (jsGet_mem rest k v h)

theorem jsGet_self_of_nodup {α β : Type} [DecidableEq α] :
    ∀ (l : List (α × β)), (l.map Prod.fst).Nodup →
      ∀ p ∈ l, jsGet l p.1 = some p.2
  | [], _, p, hp => absurd hp (List.not_mem_nil p)
  | q :: rest, hnd, p, hp => by
    rw [List.map_cons, List.nodup_cons] at hnd
    rcases List.mem_cons.mp hp with rfl | hp2
    · rw [jsGet, if_pos rfl]
    · have hne : ¬ q.1 = p.1 := by
        intro he
        exact hnd.1 (he ▸ List.mem_map_of_mem Prod.fst hp2)
      rw [jsGet, if_neg hne]
      exact jsGet_self_of_nodup rest hnd.2 p hp2

theorem jsSet_mem {α β : Type} [DecidableEq α] (l : List (α × β)) (k : α)
    (v : β) : ∀ pa ∈ jsSet l k v, pa ∈ l ∨ pa = (k, v) := by
  intro pa hpa
  unfold jsSet at hpa
  by_cases h : l.any (fun p => decide (p.1 = k)) = true
  · rw [if_pos h] at hpa
    obtain ⟨q, hq, hform⟩ := List.mem_map.mp hpa
    by_cases hqk : q.1 = k
    · rw [if_pos hqk] at hform
      exact Or.inr hform.symm
    · rw [if_neg hqk] at hform
      exact Or.inl (hform ▸ hq)
  · rw [if_neg h] at hpa
    rcases List.mem_append.mp hpa with h2 | h2
    · exact Or.inl h2
    · exact Or.inr (by simpa using h2)

theorem findAttrs_fold_mem (rest : List GeometryInstance) :
    ∀ (l : List (String × GeometryAttribute))
      (acc : List (String × GeometryAttribute)),
      ∀ pa ∈ l.foldl (fun acc p =>
        if (rest.map (fun i => jsGet i.geometry.attributes p.1)).all (fun o =>
            match o with
            | some ob => attrMatches p.2 ob
            | none => false) then
          jsSet acc p.1
            ⟨p.2.componentDatatype, p.2.componentsPerAttribute, p.2.normalize,
              List.replicate
                (p.2.values.length +
                  (rest.map (fun i =>
                    ((jsGet i.geometry.attributes p.1).map
                      (fun ob => ob.values.length)).getD 0)).sum) 0⟩
        else acc) acc,
      pa ∈ acc ∨
        ∃ p ∈ l,
          ((rest.map (fun i => jsGet i.geometry.attributes p.1)).all (fun o =>
            match o with
            | some ob => attrMatches p.2 ob
            | none => false)) = true ∧
          pa = (p.1,
            ⟨p.2.componentDatatype, p.2.componentsPerAttribute, p.2.normalize,
              List.replicate
                (p.2.values.length +
                  (rest.map (fun i =>
                    ((jsGet i.geometry.attributes p.1).map
                      (fun ob => ob.values.length)).getD 0)).sum) 0⟩)
  | [], acc, pa, hpa => Or.inl hpa
  | p :: l2, acc, pa, hpa => by
    rw [List.foldl_cons] at hpa
    rcases findAttrs_fold_mem rest l2 _ pa hpa with h2 | ⟨q, hq, hcheck, hform⟩
    · by_cases hcheck : ((rest.map (fun i => jsGet i.geometry.attributes p.1)).all
          (fun o =>
            match o with
            | some ob => attrMatches p.2 ob
            | none => false)) = true
      · rw [if_pos hcheck] at h2
        rcases jsSet_mem _ _ _ pa h2 with h3 | h3
        · exact Or.inl h3
        · exact Or.inr ⟨p, List.mem_cons_self p l2, hcheck, h3⟩
      · rw [if_neg hcheck] at h2
        exact Or.inl h2
    · exact Or.inr ⟨q, List.mem_cons_of_mem p hq, hcheck, hform⟩

theorem findAttributesInAllGeometries_mem (inst0 : GeometryInstance)
    (rest : List GeometryInstance) :
    ∀ pa ∈ findAttributesInAllGeometries (inst0 :: rest),
      ∃ p ∈ inst0.geometry.attributes,
        ((rest.map (fun i => jsGet i.geometry.attributes p.1)).all (fun o =>
          match o with
          | some ob => attrMatches p.2 ob
          | none => false)) = true ∧
        pa = (p.1,
          ⟨p.2.componentDatatype, p.2.componentsPerAttribute, p.2.normalize,
            List.replicate
              (p.2.values.length +
                (rest.map (fun i =>
                  ((jsGet i.geometry.attributes p.1).map
                    (fun ob => ob.values.length)).getD 0)).sum) 0⟩) := by
  intro pa hpa
  rcases findAttrs_fold_mem rest inst0.geometry.attributes [] pa hpa with h | h
  · exact absurd h (List.not_mem_nil pa)
  · exact h

theorem typedStore_exact (alloc data : List Rat) (h : data.length = alloc.length) :
    typedStore alloc data = data := by
  unfold typedStore
  rw [List.take_of_length_le (le_of_eq h), min_eq_left (le_of_eq h),
    List.drop_of_length_le (le_of_eq h.symm), List.append_nil]

/-- Modelled from the claim (refinement side): the merged index list the
claim predicts — each instance's index list with every index shifted by the
total vertex count of all prior instances — with the reduction modulo the
typed-array width that the code's Uint16/Uint32 buffers impose (the
amendment C6 requires). -/
def claimedMergedIndices (width : Nat) (counts : GeometryInstance → Nat) :
    List GeometryInstance → Nat → List Nat
  | [], _ => []
  | i :: rest, offset =>
    (i.geometry.indexList.getD []).map (fun e => (offset + e.getD 0) % width) ++
      claimedMergedIndices width counts rest (offset + counts i)

theorem combineIndexLists_eq_claimed (width : Nat)
    (counts : GeometryInstance → Nat) :
    ∀ (l : List GeometryInstance) (offset : Nat),
      (∀ i ∈ l, i.geometry.attributes ≠ [] ∧
        ∀ p ∈ i.geometry.attributes, 0 < p.2.componentsPerAttribute ∧
          p.2.values.length = p.2.componentsPerAttribute * counts i) →
      (∀ i ∈ l, ∀ e ∈ i.geometry.indexList.getD [], e ≠ none) →
      combineIndexLists width l offset = claimedMergedIndices width counts l offset
  | [], _, _, _ => rfl
  | i :: rest, offset, hwf, hent => by
    rw [combineIndexLists, claimedMergedIndices]
    have hinc : (match i.geometry.attributes with
        | [] => 0
        | (_, a) :: _ => a.values.length / a.componentsPerAttribute) = counts i := by
      obtain ⟨hne, hall⟩ := hwf i (List.mem_cons_self i rest)
      rcases hattr : i.geometry.attributes with _ | ⟨⟨n0, a0⟩, r⟩
      · exact absurd hattr hne
      · have h0 : 0 < a0.componentsPerAttribute ∧
            a0.values.length = a0.componentsPerAttribute * counts i :=
          hall (n0, a0) (by rw [hattr]; exact List.mem_cons_self _ _)
        show a0.values.length / a0.componentsPerAttribute = counts i
        rw [h0.2, Nat.mul_div_cancel_left _ h0.1]
    rw [hinc]
    congr 1
    · refine List.map_congr_left ?_
      intro e he
      rcases e with _ | v
      · exact absurd rfl (hent i (List.mem_cons_self i rest) none he)
      · rfl
    · exact combineIndexLists_eq_claimed width counts rest (offset + counts i)
        (fun j hj => hwf j (List.mem_cons_of_mem i hj))
        (fun j hj => hent j (List.mem_cons_of_mem i hj))

theorem combine_merge_eval
    (union : BoundingSphere → BoundingSphere → BoundingSphere)
    (inst0 inst1 : GeometryInstance) (rest2 : List GeometryInstance)
    (counts : GeometryInstance → Nat)
    (hmm : ∀ i ∈ inst1 :: rest2, i.modelMatrix = inst0.modelMatrix)
    (hidx : ∀ i ∈ inst0 :: inst1 :: rest2, i.geometry.indexList ≠ none)
    (hent : ∀ i ∈ inst0 :: inst1 :: rest2,
      ∀ e ∈ i.geometry.indexList.getD [], e ≠ none)
    (hwf : ∀ i ∈ inst0 :: inst1 :: rest2,
      i.geometry.attributes ≠ [] ∧
      ∀ p ∈ i.geometry.attributes,
        0 < p.2.componentsPerAttribute ∧
        p.2.values.length = p.2.componentsPerAttribute * counts i)
    (hnd : ∀ i ∈ inst0 :: inst1 :: rest2,
      (i.geometry.attributes.map Prod.fst).Nodup) :
    ∃ g, combine union (some (inst0 :: inst1 :: rest2)) = .ok g ∧
      g.primitiveType = inst0.geometry.primitiveType ∧
      (∀ pa ∈ g.attributes,
        pa.2.values = (inst0 :: inst1 :: rest2).flatMap (fun i =>
          ((jsGet i.geometry.attributes pa.1).map GeometryAttribute.values).getD []) ∧
        pa.2.values.length =
          pa.2.componentsPerAttribute *
            ((inst0 :: inst1 :: rest2).map counts).sum) ∧
      g.indexList = some ((claimedMergedIndices
        (if ((inst0 :: inst1 :: rest2).map (fun i =>
            (i.geometry.indexList.getD []).length)).sum < 60 * 1024
          then 65536 else 4294967296) counts (inst0 :: inst1 :: rest2) 0).map some) := by
  have hmmfalse : ¬ (((inst1 :: rest2).any
      (fun i => decide (¬ i.modelMatrix = inst0.modelMatrix))) = true) := by
    intro hc
    obtain ⟨i, hi, hne⟩ := List.any_eq_true.mp hc
    rw [decide_eq_true_eq] at hne
    exact hne (hmm i hi)
  have hidxfalse : ¬ (((inst0 :: inst1 :: rest2).any
      (fun i => decide (i.geometry.indexList = none))) = true) := by
    intro hc
    obtain ⟨i, hi, hno⟩ := List.any_eq_true.mp hc
    rw [decide_eq_true_eq] at hno
    exact hidx i hi hno
  refine ⟨⟨fillAttributes (inst0 :: inst1 :: rest2)
      (findAttributesInAllGeometries (inst0 :: inst1 :: rest2)),
    some ((combineIndexLists
      (if ((inst0 :: inst1 :: rest2).map (fun i =>
          (i.geometry.indexList.getD []).length)).sum < 60 * 1024
        then 65536 else 4294967296) (inst0 :: inst1 :: rest2) 0).map some),
    inst0.geometry.primitiveType,
    combineBS union (inst0 :: inst1 :: rest2) none⟩, ?_, rfl, ?_, ?_⟩
  · simp only [combine]
    rw [if_neg hmmfalse, if_neg hidxfalse]
  · intro pa hpa
    obtain ⟨sa, hsa, rfl⟩ := List.mem_map.mp hpa
    obtain ⟨p, hp, hcheck, hsaform⟩ :=
      findAttributesInAllGeometries_mem inst0 (inst1 :: rest2) sa hsa
    subst hsaform
    have h0get : jsGet inst0.geometry.attributes p.1 = some p.2 :=
      jsGet_self_of_nodup inst0.geometry.attributes
        (hnd inst0 (List.mem_cons_self _ _)) p hp
    have hlook : ∀ i ∈ inst1 :: rest2, ∃ ob,
        jsGet i.geometry.attributes p.1 = some ob ∧
        ob.componentDatatype = p.2.componentDatatype ∧
        ob.componentsPerAttribute = p.2.componentsPerAttribute ∧
        ob.values.length = p.2.componentsPerAttribute * counts i := by
      intro i hi
      have hcond := List.all_eq_true.mp hcheck (jsGet i.geometry.attributes p.1)
        (List.mem_map_of_mem _ hi)
      rcases hob : jsGet i.geometry.attributes p.1 with _ | ob
      · rw [hob] at hcond
        exact Bool.noConfusion hcond
      · rw [hob] at hcond
        have hmatch := hcond
        unfold attrMatches at hmatch
        simp only [Bool.and_eq_true, decide_eq_true_eq] at hmatch
        have hmem := jsGet_mem i.geometry.attributes p.1 ob hob
        have hlen := ((hwf i (List.mem_cons_of_mem inst0 hi)).2 (p.1, ob) hmem).2
        exact ⟨ob, rfl, hmatch.1.1.symm, hmatch.1.2.symm, by
          rw [hlen, hmatch.1.2]⟩
    have hlen0 : p.2.values.length =
        p.2.componentsPerAttribute * counts inst0 :=
      ((hwf inst0 (List.mem_cons_self _ _)).2 p hp).2
    -- the concatenated data and its length
    have hdatalen : ((inst0 :: inst1 :: rest2).flatMap (fun i =>
        ((jsGet i.geometry.attributes p.1).map GeometryAttribute.values).getD [])).length =
        p.2.values.length +
          ((inst1 :: rest2).map (fun i =>
            ((jsGet i.geometry.attributes p.1).map
              (fun ob => ob.values.length)).getD 0)).sum := by
      rw [List.flatMap_cons, List.length_append, h0get]
      simp only [Option.map_some', Option.getD_some]
      congr 1
      rw [List.length_flatMap]
      congr 1
      refine List.map_congr_left ?_
      intro i hi
      obtain ⟨ob, hob, _, _, _⟩ := hlook i hi
      rw [Function.comp_apply, hob]
      simp
    have hvalues : (typedStore
        (List.replicate
          (p.2.values.length +
            ((inst1 :: rest2).map (fun i =>
              ((jsGet i.geometry.attributes p.1).map
                (fun ob => ob.values.length)).getD 0)).sum) 0)
        ((inst0 :: inst1 :: rest2).flatMap (fun i =>
          ((jsGet i.geometry.attributes p.1).map GeometryAttribute.values).getD []))) =
        (inst0 :: inst1 :: rest2).flatMap (fun i =>
          ((jsGet i.geometry.attributes p.1).map GeometryAttribute.values).getD []) := by
      refine typedStore_exact _ _ ?_
      rw [List.length_replicate]
      exact hdatalen
    constructor
    · exact hvalues
    · show (typedStore _ _).length = _
      rw [hvalues, hdatalen]
      have hsum : ((inst1 :: rest2).map (fun i =>
          ((jsGet i.geometry.attributes p.1).map
            (fun ob => ob.values.length)).getD 0)).sum =
          ((inst1 :: rest2).map (fun i =>
            p.2.componentsPerAttribute * counts i)).sum := by
        congr 1
        refine List.map_congr_left ?_
        intro i hi
        obtain ⟨ob, hob, _, _, hoblen⟩ := hlook i hi
        rw [hob]
        simpa using hoblen
      show _ = p.2.componentsPerAttribute * _
      rw [hlen0, hsum, List.sum_map_mul_left]
      conv_rhs => rw [List.map_cons, List.sum_cons, Nat.mul_add]
  · show some ((combineIndexLists _ _ 0).map some) = some ((claimedMergedIndices _ _ _ 0).map some)
    rw [combineIndexLists_eq_claimed _ counts (inst0 :: inst1 :: rest2) 0 hwf hent]

/-- Modelled from the claim: the merged index list as C6 words it — each
instance's index list concatenated in order, each index offset by the total
vertex count of all prior instances, with NO further reduction.  `counts`
gives each instance's vertex count (tied to `values.length /
componentsPerAttribute` by the hypotheses of the theorems below). -/
def claimedMergedIndicesNoMod (counts : GeometryInstance → Nat) :
    List GeometryInstance → Nat → List Nat
  | [], _ => []
  | i :: rest, offset =>
    (i.geometry.indexList.getD []).map (fun e => offset + e.getD 0) ++
      claimedMergedIndicesNoMod counts rest (offset + counts i)

/-- Counterexample instance for C6: 65537 one-component vertices, a single
index 0. -/
def cxBig : GeometryInstance :=
  ⟨⟨[("position", ⟨.FLOAT, 1, false, List.replicate 65537 0⟩)], some [some 0],
    .TRIANGLES, none⟩, Matrix4.IDENTITY⟩

/-- Counterexample instance for C6: one one-component vertex, a single
index 0.  (The primitive type only serves to discriminate the two
instances cheaply; combine never looks at it beyond copying the first.) -/
def cxSmall : GeometryInstance :=
  ⟨⟨[("position", ⟨.FLOAT, 1, false, [0]⟩)], some [some 0],
    .LINES, none⟩, Matrix4.IDENTITY⟩

/-- Vertex counts of the two counterexample instances. -/
def cxCounts : GeometryInstance → Nat := fun i =>
  match i.geometry.primitiveType with
  | .TRIANGLES => 65537
  | _ => 1

theorem cx_wellformed : ∀ i ∈ [cxBig, cxSmall], i.geometry.attributes ≠ [] ∧
    ∀ p ∈ i.geometry.attributes, 0 < p.2.componentsPerAttribute ∧
      p.2.values.length = p.2.componentsPerAttribute * cxCounts i := by
  intro i hi
  rcases List.mem_cons.mp hi with rfl | hi2
  · refine ⟨List.cons_ne_nil _ _, ?_⟩
    intro p hp
    rcases List.mem_cons.mp hp with rfl | hp2
    · refine ⟨Nat.one_pos, ?_⟩
      show (List.replicate 65537 (0 : Rat)).length = 1 * cxCounts cxBig
      rw [List.length_replicate, Nat.one_mul]
      rfl
    · exact absurd hp2 (List.not_mem_nil p)
  · rcases List.mem_cons.mp hi2 with rfl | hnil
    · exact ⟨by decide, by decide⟩
    · exact absurd hnil (List.not_mem_nil i)

/-- C6: counterexample to the claimed index-offset law.  The two instances
are mergeable (same modelMatrix, index lists present, each geometry's
attributes share one vertex count, recorded by `cx_wellformed` above with
the vertex counts 65537 and 1), yet the merged geometry's index list is NOT
the concatenation of the index lists with each instance's indices offset by
the prior vertex total: the merge is written into a Uint16Array whenever the
total index COUNT is below 61440 — regardless of the index VALUES — so the
second instance's offset index 0 + 65537 is stored as 65537 mod 2^16 = 1. -/
theorem combine_offset_overflow_counterexample :
    (∀ i ∈ [cxBig, cxSmall], i.geometry.attributes ≠ [] ∧
      ∀ p ∈ i.geometry.attributes, 0 < p.2.componentsPerAttribute ∧
        p.2.values.length = p.2.componentsPerAttribute * cxCounts i) ∧
    ∃ g, combine (fun a _ => a) (some [cxBig, cxSmall]) = .ok g ∧
      g.indexList ≠ some ((claimedMergedIndicesNoMod cxCounts [cxBig, cxSmall] 0).map some) := by
  refine ⟨cx_wellformed, ?_⟩
  obtain ⟨g, hok, _, _, hidxeq⟩ :=
    combine_merge_eval (fun a _ => a) cxBig cxSmall [] cxCounts
      (by decide) (by decide) (by decide) cx_wellformed (by decide)
  refine ⟨g, hok, ?_⟩
  rw [hidxeq]
  decide

/-- C6 (amended): for two or more mergeable instances (same modelMatrix,
index lists present and hole-free, each geometry's attributes nonempty and
sharing the vertex count `counts i`), combine returns a geometry in which
every surviving attribute's values buffer is the concatenation of the
instances' values for that name in input order — so its length is
componentsPerAttribute times the summed vertex counts — and whose index
buffer is the concatenation of the instances' index lists with each
instance's indices offset by the total vertex count of all prior instances
AND REDUCED MODULO THE TYPED-ARRAY WIDTH: 2^16 when the total index count
is below 61440 (Uint16Array), 2^32 otherwise (Uint32Array). -/
theorem combine_merge_spec
    (union : BoundingSphere → BoundingSphere → BoundingSphere)
    (inst0 inst1 : GeometryInstance) (rest2 : List GeometryInstance)
    (counts : GeometryInstance → Nat)
    (hmm : ∀ i ∈ inst1 :: rest2, i.modelMatrix = inst0.modelMatrix)
    (hidx : ∀ i ∈ inst0 :: inst1 :: rest2, i.geometry.indexList ≠ none)
    (hent : ∀ i ∈ inst0 :: inst1 :: rest2,
      ∀ e ∈ i.geometry.indexList.getD [], e ≠ none)
    (hwf : ∀ i ∈ inst0 :: inst1 :: rest2,
      i.geometry.attributes ≠ [] ∧
      ∀ p ∈ i.geometry.attributes,
        0 < p.2.componentsPerAttribute ∧
        p.2.values.length = p.2.componentsPerAttribute * counts i)
    (hnd : ∀ i ∈ inst0 :: inst1 :: rest2,
      (i.geometry.attributes.map Prod.fst).Nodup) :
    ∃ g, combine union (some (inst0 :: inst1 :: rest2)) = .ok g ∧
      (∀ pa ∈ g.attributes,
        pa.2.values = (inst0 :: inst1 :: rest2).flatMap (fun i =>
          ((jsGet i.geometry.attributes pa.1).map GeometryAttribute.values).getD []) ∧
        pa.2.values.length =
          pa.2.componentsPerAttribute *
            ((inst0 :: inst1 :: rest2).map counts).sum) ∧
      g.indexList = some ((claimedMergedIndices
        (if ((inst0 :: inst1 :: rest2).map (fun i =>
            (i.geometry.indexList.getD []).length)).sum < 60 * 1024
          then 65536 else 4294967296) counts (inst0 :: inst1 :: rest2) 0).map some) := by
  obtain ⟨g, h1, _, h3, h4⟩ :=
    combine_merge_eval union inst0 inst1 rest2 counts hmm hidx hent hwf hnd
  exact ⟨g, h1, h3, h4⟩

/-- Witness geometry instance: one vertex with value 2, index list [0]. -/
def wInst1 : GeometryInstance :=
  ⟨⟨[("position", ⟨.FLOAT, 1, false, [2]⟩)], some [some 0],
    .TRIANGLES, none⟩, Matrix4.IDENTITY⟩

/-- Witness geometry instance: one vertex with value 3, index list [0]. -/
def wInst2 : GeometryInstance :=
  ⟨⟨[("position", ⟨.FLOAT, 1, false, [3]⟩)], some [some 0],
    .TRIANGLES, none⟩, Matrix4.IDENTITY⟩

/-- C6 witness: the amended merge law applied to two concrete one-vertex
instances. -/
theorem combine_merge_spec_witness :
    ∃ g, combine (fun a _ => a) (some [wInst1, wInst2]) = .ok g ∧
      (∀ pa ∈ g.attributes,
        pa.2.values = [wInst1, wInst2].flatMap (fun i =>
          ((jsGet i.geometry.attributes pa.1).map GeometryAttribute.values).getD []) ∧
        pa.2.values.length =
          pa.2.componentsPerAttribute * (([wInst1, wInst2]).map (fun _ => 1)).sum) ∧
      g.indexList = some ((claimedMergedIndices
        (if (([wInst1, wInst2]).map (fun i =>
            (i.geometry.indexList.getD []).length)).sum < 60 * 1024
          then 65536 else 4294967296) (fun _ => 1) [wInst1, wInst2] 0).map some) :=
  combine_merge_spec (fun a _ => a) wInst1 wInst2 [] (fun _ => 1)
    (by decide) (by decide) (by decide) (by decide) (by decide)

/-! ### GeometryFilters.computeNormal (source lines 820-940) -/

/-- A 3-component point/vector value. -/
abbrev V3 := Rat × Rat × Rat

/-- The Cartesian3 vector operations computeNormal calls (subtract, cross,
add, normalize).  Cartesian3.js is a collaborator outside src/, so the
operations are parameters: every theorem below holds for any
implementation of them. -/
structure Cart3Ops where
  sub : V3 → V3 → V3
  cross : V3 → V3 → V3
  add : V3 → V3 → V3
  normalize : V3 → V3

/-- One entry of the source's `normalsPerVertex` array (lines 849-853):
`{ indexOffset, count, currentCount }`. -/
structure VertexNormalData where
  indexOffset : Nat
  count : Nat
  currentCount : Nat
deriving DecidableEq, Repr

/-- `normalsPerVertex[i].count++` (lines 875-877).  The out-of-range case is
unreachable from `cnTriangleStep`, which has already errored on an invalid
index. -/
def bumpCount (npv : List VertexNormalData) (i : Nat) : List VertexNormalData :=
  match npv[i]? with
  | some en => npv.set i ⟨en.indexOffset, en.count + 1, en.currentCount⟩
  | none => npv

/-- Lines 865-881: read the three corner points of a triangle and form the
face normal `cross(v1 - v0, v2 - v0)`. -/
def cnFaceNormal (ops : Cart3Ops) (vertices : List Rat) (i0 i1 i2 : Nat) : V3 :=
  let v0 : V3 := (readQ vertices (3 * i0), readQ vertices (3 * i0 + 1),
    readQ vertices (3 * i0 + 2))
  let v1 : V3 := (readQ vertices (3 * i1), readQ vertices (3 * i1 + 1),
    readQ vertices (3 * i1 + 2))
  let v2 : V3 := (readQ vertices (3 * i2), readQ vertices (3 * i2 + 1),
    readQ vertices (3 * i2 + 2))
  ops.cross (ops.sub v1 v0) (ops.sub v2 v0)

/-- One iteration of the first triangle loop (lines 857-883).  A hole or
out-of-range index makes `normalsPerVertex[iK]` read as `undefined`, so
`.count++` is a JS TypeError. -/
def cnTriangleStep (numVertices : Nat) (vertices : List Rat) (ops : Cart3Ops)
    (npv : List VertexNormalData) (e0 e1 e2 : Option Nat) :
    Except JsError (List VertexNormalData × V3) :=
  match e0, e1, e2 with
  | some i0, some i1, some i2 =>
    if i0 < numVertices ∧ i1 < numVertices ∧ i2 < numVertices then
      .ok (bumpCount (bumpCount (bumpCount npv i0) i1) i2,
        cnFaceNormal ops vertices i0 i1 i2)
    else .error (.typeErr "Cannot read property count of undefined")
  | _, _, _ => .error (.typeErr "Cannot read property count of undefined")

/-- The first triangle loop (lines 857-883), 3 indices at a time.  A
trailing partial triangle reads `undefined` past the end of the index list,
which `cnTriangleStep` turns into the TypeError the source would throw. -/
def cnTriangleLoop (numVertices : Nat) (vertices : List Rat) (ops : Cart3Ops) :
    List (Option Nat) → List VertexNormalData → List V3 →
    Except JsError (List VertexNormalData × List V3)
  | e0 :: e1 :: e2 :: rest, npv, tris =>
    match cnTriangleStep numVertices vertices ops npv e0 e1 e2 with
    | .error e => .error e
    | .ok (npv2, tri) => cnTriangleLoop numVertices vertices ops rest npv2 (tris ++ [tri])
  | [e0, e1], npv, tris =>
    match cnTriangleStep numVertices vertices ops npv e0 e1 none with
    | .error e => .error e
    | .ok (npv2, tri) => .ok (npv2, tris ++ [tri])
  | [e0], npv, tris =>
    match cnTriangleStep numVertices vertices ops npv e0 none none with
    | .error e => .error e
    | .ok (npv2, tri) => .ok (npv2, tris ++ [tri])
  | [], npv, tris => .ok (npv, tris)

/-- The prefix-sum loop over `normalsPerVertex` (lines 885-889):
`indexOffset += runningTotal; runningTotal += count`. -/
def cnOffsets : List VertexNormalData → Nat → List VertexNormalData
  | [], _ => []
  | en :: rest, acc =>
    ⟨en.indexOffset + acc, en.count, en.currentCount⟩ :: cnOffsets rest (acc + en.count)

/-- JS sparse write `a[i] = v` on an array of (possibly-hole) index slots:
in range sets, past the end extends with holes. -/
def jsWriteOpt (l : List (Option Nat)) (i : Nat) (v : Nat) : List (Option Nat) :=
  if i < l.length then l.set i (some v)
  else l ++ List.replicate (i - l.length) none ++ [some v]

/-- One of the three per-index statements of the second loop (lines
894-907): read `normalsPerVertex[indices[..]]`, record the triangle number
at slot `indexOffset + currentCount` of `normalIndices`, bump
`currentCount`.  A hole or out-of-range index reads `undefined` and the
`.indexOffset` access is a TypeError. -/
def cnIndexStep (npv : List VertexNormalData) (ni : List (Option Nat))
    (e : Option Nat) (j : Nat) :
    Except JsError (List VertexNormalData × List (Option Nat)) :=
  match e with
  | some x =>
    match npv[x]? with
    | some en =>
      .ok (npv.set x ⟨en.indexOffset, en.count, en.currentCount + 1⟩,
        jsWriteOpt ni (en.indexOffset + en.currentCount) j)
    | none => .error (.typeErr "Cannot read property indexOffset of undefined")
  | none => .error (.typeErr "Cannot read property indexOffset of undefined")

/-- The second triangle loop (lines 891-910), filling `normalIndices`. -/
def cnIndexLoop : List (Option Nat) → Nat → List VertexNormalData →
    List (Option Nat) → Except JsError (List VertexNormalData × List (Option Nat))
  | e0 :: e1 :: e2 :: rest, j, npv, ni =>
    match cnIndexStep npv ni e0 j with
    | .error e => .error e
    | .ok (npv1, ni1) =>
      match cnIndexStep npv1 ni1 e1 j with
      | .error e => .error e
      | .ok (npv2, ni2) =>
        match cnIndexStep npv2 ni2 e2 j with
        | .error e => .error e
        | .ok (npv3, ni3) => cnIndexLoop rest (j + 1) npv3 ni3
  | [e0, e1], j, npv, ni =>
    match cnIndexStep npv ni e0 j with
    | .error e => .error e
    | .ok (npv1, ni1) =>
      match cnIndexStep npv1 ni1 e1 j with
      | .error e => .error e
      | .ok (npv2, ni2) => cnIndexStep npv2 ni2 none j
  | [e0], j, npv, ni =>
    match cnIndexStep npv ni e0 j with
    | .error e => .error e
    | .ok (npv1, ni1) => cnIndexStep npv1 ni1 none j
  | [], _, npv, ni => .ok (npv, ni)

/-- The accumulation loop of the count > 0 branch (lines 924-927): sum the
`count` face normals recorded for one vertex, starting from
`Cartesian3.ZERO`.  A hole in `normalIndices` or `normalsPerTriangle` would
be a TypeError in JS; it is modelled as reading index 0 / the zero vector,
and no theorem below constrains values computed by this branch. -/
def cnSumNormals (ops : Cart3Ops) (tris : List V3) (ni : List (Option Nat))
    (offset count : Nat) : V3 :=
  (List.range count).foldl
    (fun acc j => ops.add acc (tris.getD ((readIdx ni (offset + j)).getD 0) (0, 0, 0)))
    (0, 0, 0)

/-- One iteration of the final write loop (lines 920-937): a referenced
vertex gets its normalized summed face normal, an unreferenced one gets
(0,0,1), written at slots 3i, 3i+1, 3i+2 of the normal values buffer. -/
def cnWriteStep (ops : Cart3Ops) (npv : List VertexNormalData) (tris : List V3)
    (ni : List (Option Nat)) (vals : List Rat) (i : Nat) : List Rat :=
  match npv[i]? with
  | none => vals
  | some en =>
    if 0 < en.count then
      let n := ops.normalize (cnSumNormals ops tris ni en.indexOffset en.count)
      jsWriteQ (jsWriteQ (jsWriteQ vals ((3 * i : Nat) : Int) n.1)
        ((3 * i + 1 : Nat) : Int) n.2.1) ((3 * i + 2 : Nat) : Int) n.2.2
    else
      jsWriteQ (jsWriteQ (jsWriteQ vals ((3 * i : Nat) : Int) 0)
        ((3 * i + 1 : Nat) : Int) 0) ((3 * i + 2 : Nat) : Int) 1

/-- GeometryFilters.computeNormal (lines 820-940), relative to the
Cartesian3 vector collaborator.  The input `none` is an absent `mesh`
argument.  A position attribute in this model always carries a `values`
list, so the `position.values === undefined` half of the line-825 check
cannot fire.  When no normal attribute exists, `new Array(numVertices * 3)`
is modelled as a zero list: the write loop overwrites every slot below
`3 * numVertices`, so the placeholder is never observable. -/
def computeNormal (ops : Cart3Ops) : Option Geometry → Except JsError Geometry
  | none => .error (.developer "mesh is required.")
  | some mesh =>
    match jsGet mesh.attributes "position" with
    | none => .error (.developer "mesh.attributes.position.values is required")
    | some pos =>
      if pos.componentsPerAttribute ≠ 3 ∨ pos.values.length % 3 ≠ 0 then
        .error (.developer "mesh.attributes.position.values.length must be a multiple of 3")
      else
        match mesh.indexList with
        | none => .ok mesh
        | some indices =>
          if mesh.primitiveType ≠ PrimitiveType.TRIANGLES ∨ indices.length < 2 ∨
              indices.length % 3 ≠ 0 then
            .ok mesh
          else
            let numVertices := pos.values.length / 3
            match cnTriangleLoop numVertices pos.values ops indices
                (List.replicate numVertices ⟨0, 0, 0⟩) [] with
            | .error e => .error e
            | .ok (npv1, tris) =>
              match cnIndexLoop indices 0 (cnOffsets npv1 0)
                  (List.replicate indices.length none) with
              | .error e => .error e
              | .ok (npv3, ni) =>
                let na := (jsGet mesh.attributes "normal").getD
                  ⟨.FLOAT, 3, false, List.replicate (numVertices * 3) 0⟩
                let vals := (List.range numVertices).foldl
                  (cnWriteStep ops npv3 tris ni) na.values
                .ok { mesh with attributes :=
                  (jsSet mesh.attributes "normal" { na with values := vals }) }

theorem bumpCount_length (npv : List VertexNormalData) (i : Nat) :
    (bumpCount npv i).length = npv.length := by
  rcases h : npv[i]? with _ | en <;> simp [bumpCount, h]

theorem bumpCount_get_ne (npv : List VertexNormalData) (i v : Nat) (hne : i ≠ v) :
    (bumpCount npv i)[v]? = npv[v]? := by
  rcases h : npv[i]? with _ | en <;> simp only [bumpCount, h]
  exact List.getElem?_set_ne hne

theorem cnTriangleLoop_ok (numVertices : Nat) (vertices : List Rat)
    (ops : Cart3Ops) (v : Nat) :
    ∀ (il : List (Option Nat)) (npv : List VertexNormalData) (tris : List V3),
      il.length % 3 = 0 →
      (∀ e ∈ il, ∃ x, e = some x ∧ x < numVertices) →
      (∀ e ∈ il, e ≠ some v) →
      npv.length = numVertices →
      npv[v]? = some ⟨0, 0, 0⟩ →
      ∃ npv2 tris2,
        cnTriangleLoop numVertices vertices ops il npv tris = .ok (npv2, tris2) ∧
        npv2.length = numVertices ∧ npv2[v]? = some ⟨0, 0, 0⟩
  | [], npv, tris, _, _, _, hlen, hv => ⟨npv, tris, rfl, hlen, hv⟩
  | [_], _, _, hmod, _, _, _, _ => absurd hmod (by simp)
  | [_, _], _, _, hmod, _, _, _, _ => absurd hmod (by simp)
  | e0 :: e1 :: e2 :: rest, npv, tris, hmod, hval, hne, hlen, hv => by
    obtain ⟨i0, rfl, hi0⟩ := hval e0 (by simp)
    obtain ⟨i1, rfl, hi1⟩ := hval e1 (by simp)
    obtain ⟨i2, rfl, hi2⟩ := hval e2 (by simp)
    have h0 : i0 ≠ v := fun h => hne (some i0) (by simp) (by rw [h])
    have h1 : i1 ≠ v := fun h => hne (some i1) (by simp) (by rw [h])
    have h2 : i2 ≠ v := fun h => hne (some i2) (by simp) (by rw [h])
    have hstep : cnTriangleStep numVertices vertices ops npv (some i0) (some i1) (some i2) =
        .ok (bumpCount (bumpCount (bumpCount npv i0) i1) i2,
          cnFaceNormal ops vertices i0 i1 i2) := by
      simp only [cnTriangleStep]
      rw [if_pos ⟨hi0, hi1, hi2⟩]
    have hlenb : (bumpCount (bumpCount (bumpCount npv i0) i1) i2).length = numVertices := by
      rw [bumpCount_length, bumpCount_length, bumpCount_length, hlen]
    have hvb : (bumpCount (bumpCount (bumpCount npv i0) i1) i2)[v]? = some ⟨0, 0, 0⟩ := by
      rw [bumpCount_get_ne _ _ _ h2, bumpCount_get_ne _ _ _ h1, bumpCount_get_ne _ _ _ h0]
      exact hv
    obtain ⟨npv2, tris2, hrec, hl2, hv2⟩ :=
      cnTriangleLoop_ok numVertices vertices ops v rest
        (bumpCount (bumpCount (bumpCount npv i0) i1) i2)
        (tris ++ [cnFaceNormal ops vertices i0 i1 i2])
        (by simp only [List.length_cons] at hmod; omega)
        (fun e he => hval e (by simp [he]))
        (fun e he => hne e (by simp [he])) hlenb hvb
    refine ⟨npv2, tris2, ?_, hl2, hv2⟩
    simp only [cnTriangleLoop, hstep]
    exact hrec

theorem cnOffsets_length :
    ∀ (l : List VertexNormalData) (acc : Nat), (cnOffsets l acc).length = l.length
  | [], _ => rfl
  | _ :: rest, acc => by
    simp only [cnOffsets, List.length_cons, cnOffsets_length rest]

theorem cnOffsets_get :
    ∀ (l : List VertexNormalData) (acc v io c cc : Nat),
      l[v]? = some ⟨io, c, cc⟩ →
      ∃ m, (cnOffsets l acc)[v]? = some ⟨m, c, cc⟩
  | [], _, v, _, _, _, h => absurd h (by simp)
  | en :: rest, acc, 0, io, c, cc, h => by
    have hen : en = ⟨io, c, cc⟩ := by simpa using h
    refine ⟨en.indexOffset + acc, ?_⟩
    simp [cnOffsets, hen]
  | en :: rest, acc, v + 1, io, c, cc, h => by
    simp only [List.getElem?_cons_succ] at h
    simpa only [cnOffsets, List.getElem?_cons_succ] using
      cnOffsets_get rest (acc + en.count) v io c cc h

theorem cnIndexStep_ok (npv : List VertexNormalData) (ni : List (Option Nat))
    (x j v m N : Nat) (hx : x < N) (hxv : x ≠ v) (hlen : npv.length = N)
    (hv : npv[v]? = some ⟨m, 0, 0⟩) :
    ∃ npv2 ni2, cnIndexStep npv ni (some x) j = .ok (npv2, ni2) ∧
      npv2.length = N ∧ npv2[v]? = some ⟨m, 0, 0⟩ := by
  have hxl : x < npv.length := by omega
  have hgx : npv[x]? = some npv[x] := List.getElem?_eq_getElem hxl
  refine ⟨npv.set x ⟨(npv[x]).indexOffset, (npv[x]).count, (npv[x]).currentCount + 1⟩,
    jsWriteOpt ni ((npv[x]).indexOffset + (npv[x]).currentCount) j, ?_, ?_, ?_⟩
  · simp only [cnIndexStep, hgx]
  · rw [List.length_set, hlen]
  · rw [List.getElem?_set_ne hxv]
    exact hv

theorem cnIndexLoop_ok (v m N : Nat) :
    ∀ (il : List (Option Nat)) (j : Nat) (npv : List VertexNormalData)
      (ni : List (Option Nat)),
      il.length % 3 = 0 →
      (∀ e ∈ il, ∃ x, e = some x ∧ x < N) →
      (∀ e ∈ il, e ≠ some v) →
      npv.length = N →
      npv[v]? = some ⟨m, 0, 0⟩ →
      ∃ npv2 ni2, cnIndexLoop il j npv ni = .ok (npv2, ni2) ∧
        npv2[v]? = some ⟨m, 0, 0⟩
  | [], _, npv, ni, _, _, _, _, hv => ⟨npv, ni, rfl, hv⟩
  | [_], _, _, _, hmod, _, _, _, _ => absurd hmod (by simp)
  | [_, _], _, _, _, hmod, _, _, _, _ => absurd hmod (by simp)
  | e0 :: e1 :: e2 :: rest, j, npv, ni, hmod, hval, hne, hlen, hv => by
    obtain ⟨x0, rfl, hx0⟩ := hval e0 (by simp)
    obtain ⟨x1, rfl, hx1⟩ := hval e1 (by simp)
    obtain ⟨x2, rfl, hx2⟩ := hval e2 (by simp)
    have h0 : x0 ≠ v := fun h => hne (some x0) (by simp) (by rw [h])
    have h1 : x1 ≠ v := fun h => hne (some x1) (by simp) (by rw [h])
    have h2 : x2 ≠ v := fun h => hne (some x2) (by simp) (by rw [h])
    obtain ⟨npvA, niA, hsA, hlA, hvA⟩ := cnIndexStep_ok npv ni x0 j v m N hx0 h0 hlen hv
    obtain ⟨npvB, niB, hsB, hlB, hvB⟩ := cnIndexStep_ok npvA niA x1 j v m N hx1 h1 hlA hvA
    obtain ⟨npvC, niC, hsC, hlC, hvC⟩ := cnIndexStep_ok npvB niB x2 j v m N hx2 h2 hlB hvB
    obtain ⟨npv2, ni2, hrec, hv2⟩ :=
      cnIndexLoop_ok v m N rest (j + 1) npvC niC
        (by simp only [List.length_cons] at hmod; omega)
        (fun e he => hval e (by simp [he]))
        (fun e he => hne e (by simp [he])) hlC hvC
    refine ⟨npv2, ni2, ?_, hv2⟩
    simp only [cnIndexLoop, hsA, hsB, hsC]
    exact hrec

theorem cnWriteStep_preserve (ops : Cart3Ops) (npv : List VertexNormalData)
    (tris : List V3) (ni : List (Option Nat)) (vals : List Rat) (i q : Nat)
    (y : Rat) (hq : vals[q]? = some y) (hlt : q < 3 * i) :
    (cnWriteStep ops npv tris ni vals i)[q]? = some y := by
  rcases h : npv[i]? with _ | en
  · simp only [cnWriteStep, h]
    exact hq
  · simp only [cnWriteStep, h]
    by_cases hc : 0 < en.count
    · rw [if_pos hc]
      refine jsWriteQ_get_preserve _ _ _ _ _ (jsWriteQ_get_preserve _ _ _ _ _
        (jsWriteQ_get_preserve _ _ _ _ _ hq ?_) ?_) ?_ <;> (push_cast; omega)
    · rw [if_neg hc]
      refine jsWriteQ_get_preserve _ _ _ _ _ (jsWriteQ_get_preserve _ _ _ _ _
        (jsWriteQ_get_preserve _ _ _ _ _ hq ?_) ?_) ?_ <;> (push_cast; omega)

theorem cnWriteStep_unref (ops : Cart3Ops) (npv : List VertexNormalData)
    (tris : List V3) (ni : List (Option Nat)) (vals : List Rat) (i m : Nat)
    (h : npv[i]? = some ⟨m, 0, 0⟩) :
    (cnWriteStep ops npv tris ni vals i)[3 * i]? = some 0 ∧
    (cnWriteStep ops npv tris ni vals i)[3 * i + 1]? = some 0 ∧
    (cnWriteStep ops npv tris ni vals i)[3 * i + 2]? = some 1 := by
  simp only [cnWriteStep, h]
  rw [if_neg (Nat.lt_irrefl 0)]
  refine ⟨?_, ?_, ?_⟩
  · have hh : (jsWriteQ vals ((3 * i : Nat) : Int) 0)[3 * i]? = some 0 := by
      have hx := jsWriteQ_get_self vals ((3 * i : Nat) : Int) 0 (Int.natCast_nonneg _)
      rwa [Int.toNat_natCast] at hx
    exact jsWriteQ_get_preserve _ _ _ _ _
      (jsWriteQ_get_preserve _ _ _ _ _ hh (by push_cast; omega)) (by push_cast; omega)
  · have hh : (jsWriteQ (jsWriteQ vals ((3 * i : Nat) : Int) 0)
        ((3 * i + 1 : Nat) : Int) 0)[3 * i + 1]? = some 0 := by
      have hx := jsWriteQ_get_self (jsWriteQ vals ((3 * i : Nat) : Int) 0)
        ((3 * i + 1 : Nat) : Int) 0 (Int.natCast_nonneg _)
      rwa [Int.toNat_natCast] at hx
    exact jsWriteQ_get_preserve _ _ _ _ _ hh (by push_cast; omega)
  · have hx := jsWriteQ_get_self
      (jsWriteQ (jsWriteQ vals ((3 * i : Nat) : Int) 0) ((3 * i + 1 : Nat) : Int) 0)
      ((3 * i + 2 : Nat) : Int) 1 (Int.natCast_nonneg _)
    rwa [Int.toNat_natCast] at hx

theorem foldl_cnWriteStep_preserve (ops : Cart3Ops) (npv : List VertexNormalData)
    (tris : List V3) (ni : List (Option Nat)) (q : Nat) (y : Rat) :
    ∀ (idxs : List Nat) (vals : List Rat),
      (∀ i ∈ idxs, q < 3 * i) → vals[q]? = some y →
      (idxs.foldl (cnWriteStep ops npv tris ni) vals)[q]? = some y
  | [], _, _, hq => hq
  | i :: rest, vals, hlt, hq => by
    rw [List.foldl_cons]
    exact foldl_cnWriteStep_preserve ops npv tris ni q y rest _
      (fun i2 h2 => hlt i2 (List.mem_cons_of_mem i h2))
      (cnWriteStep_preserve ops npv tris ni vals i q y hq (hlt i (List.mem_cons_self i rest)))

/-- C9: for every TRIANGLES mesh satisfying computeNormal's preconditions
(position attribute present with 3 components and a values length that is a
multiple of 3, index list present with length at least 2 and a multiple of
3, every index present and below the vertex count), every vertex referenced
by zero triangles of the index list receives the normal (0, 0, 1): slots
3v, 3v+1, 3v+2 of the written normal attribute hold 0, 0, 1.  This holds
for every implementation of the Cartesian3 vector operations. -/
theorem computeNormal_unreferenced_default
    (ops : Cart3Ops) (mesh : Geometry) (pos : GeometryAttribute)
    (indices : List (Option Nat)) (v : Nat)
    (hpos : jsGet mesh.attributes "position" = some pos)
    (hcomp : pos.componentsPerAttribute = 3)
    (hmod : pos.values.length % 3 = 0)
    (hil : mesh.indexList = some indices)
    (hpt : mesh.primitiveType = PrimitiveType.TRIANGLES)
    (hlen2 : 2 ≤ indices.length)
    (hlen3 : indices.length % 3 = 0)
    (hvalid : ∀ e ∈ indices, ∃ x, e = some x ∧ x < pos.values.length / 3)
    (hv : v < pos.values.length / 3)
    (hunref : ∀ e ∈ indices, e ≠ some v) :
    ∃ g na, computeNormal ops (some mesh) = .ok g ∧
      jsGet g.attributes "normal" = some na ∧
      na.values[3 * v]? = some 0 ∧ na.values[3 * v + 1]? = some 0 ∧
      na.values[3 * v + 2]? = some 1 := by
  obtain ⟨npv1, tris1, hloop1, hlen1, hv1⟩ :=
    cnTriangleLoop_ok (pos.values.length / 3) pos.values ops v indices
      (List.replicate (pos.values.length / 3) ⟨0, 0, 0⟩) [] hlen3 hvalid hunref
      (by rw [List.length_replicate])
      (by rw [List.getElem?_replicate, if_pos hv])
  obtain ⟨m, hv2⟩ := cnOffsets_get npv1 0 v 0 0 0 hv1
  obtain ⟨npv3, ni3, hloop2, hv3⟩ :=
    cnIndexLoop_ok v m (pos.values.length / 3) indices 0 (cnOffsets npv1 0)
      (List.replicate indices.length none) hlen3 hvalid hunref
      (by rw [cnOffsets_length, hlen1]) hv2
  simp only [computeNormal, hpos, hil]
  rw [if_neg (by push_neg; exact ⟨hcomp, hmod⟩),
    if_neg (by push_neg; exact ⟨hpt, hlen2, hlen3⟩)]
  simp only [hloop1, hloop2]
  have hsplit : List.range (pos.values.length / 3) =
      List.range v ++ [v] ++
        (List.range (pos.values.length / 3 - (v + 1))).map ((v + 1) + ·) := by
    rw [← List.range_succ, ← List.range_add]
    congr 1
    omega
  have hslots : ∀ X : List Rat,
      ((List.range (pos.values.length / 3)).foldl
        (cnWriteStep ops npv3 tris1 ni3) X)[3 * v]? = some 0 ∧
      ((List.range (pos.values.length / 3)).foldl
        (cnWriteStep ops npv3 tris1 ni3) X)[3 * v + 1]? = some 0 ∧
      ((List.range (pos.values.length / 3)).foldl
        (cnWriteStep ops npv3 tris1 ni3) X)[3 * v + 2]? = some 1 := by
    intro X
    rw [hsplit, List.foldl_append, List.foldl_append, List.foldl_cons, List.foldl_nil]
    obtain ⟨w0, w1, w2⟩ := cnWriteStep_unref ops npv3 tris1 ni3
      ((List.range v).foldl (cnWriteStep ops npv3 tris1 ni3) X) v m hv3
    refine ⟨foldl_cnWriteStep_preserve ops npv3 tris1 ni3 (3 * v) 0 _ _ ?_ w0,
      foldl_cnWriteStep_preserve ops npv3 tris1 ni3 (3 * v + 1) 0 _ _ ?_ w1,
      foldl_cnWriteStep_preserve ops npv3 tris1 ni3 (3 * v + 2) 1 _ _ ?_ w2⟩ <;>
      (intro i hi; obtain ⟨jj, _, rfl⟩ := List.mem_map.mp hi; omega)
  refine ⟨_, _, rfl, jsGet_jsSet_self mesh.attributes "normal" _,
    (hslots _).1, (hslots _).2.1, (hslots _).2.2⟩

/-- Witness mesh for C9: two 3-component vertices, every index referencing
vertex 0, vertex 1 unreferenced. -/
def wNormalMesh : Geometry :=
  ⟨[("position", ⟨.FLOAT, 3, false, [0, 0, 0, 0, 0, 0]⟩)],
    some (List.replicate 3 (some 0)), .TRIANGLES, none⟩

/-- Concrete vector operations for the C9 witness. -/
def wOps : Cart3Ops := ⟨fun a _ => a, fun a _ => a, fun a _ => a, fun a => a⟩

/-- C9 witness: on the concrete mesh, the unreferenced vertex 1 gets the
normal (0, 0, 1) at slots 3, 4, 5. -/
theorem computeNormal_unreferenced_default_witness :
    ∃ g na, computeNormal wOps (some wNormalMesh) = .ok g ∧
      jsGet g.attributes "normal" = some na ∧
      na.values[3 * 1]? = some 0 ∧ na.values[3 * 1 + 1]? = some 0 ∧
      na.values[3 * 1 + 2]? = some 1 :=
  computeNormal_unreferenced_default wOps wNormalMesh
    ⟨.FLOAT, 3, false, [0, 0, 0, 0, 0, 0]⟩ (List.replicate 3 (some 0)) 1
    rfl rfl (by decide) rfl rfl (by decide) (by decide)
    (fun e he => by rw [List.eq_of_mem_replicate he]; exact ⟨0, rfl, by decide⟩)
    (by decide)
    (fun e he => by rw [List.eq_of_mem_replicate he]; decide)

end CesiumGF
